import Mathlib

/-!
Verification development for the code-generation core: a shallow embedding of

* `cmd_internal/obj/riscv/inst.go` : the RISC-V instruction encoder `encode`;
* `internal/types/pkg.go`, `internal/types/sym.go` : the package registry, the
  symbol table, the string intern pool, linkage resolution and the symbol
  ordering `Sym.Less`;
* `internal/riscv64/gsubr.go`, `galign.go` : the no-op hook and `Init`;
* `main.go` : architecture selection;
* `src_internal/coverage/pkid.go` : hard-coded package IDs.

Go strings and byte slices are byte sequences (`List Nat`), pointers are
addresses into explicit object stores, and a Go panic is an `Except` error.
-/

namespace Compile

/-! ## RISC-V instruction encoder (`cmd_internal/obj/riscv/inst.go`) -/

namespace riscv

/-- Descriptor record `inst` of `inst.go`: `opcode`, `funct3`, `rs2` and `funct7`
are `uint32`, `csr` is `int64`. -/
structure inst where
  opcode : Nat
  funct3 : Nat
  rs2 : Nat
  csr : Int
  funct7 : Nat
deriving DecidableEq, Repr

/-- The mnemonic constants named by the `case` labels of `encode`, in source
order.  Their numeric values (type `obj.As`) are declared outside the encoder
and enter the model as the valuation `A : Mnemonic → Int`. -/
inductive Mnemonic where
  | AADD | AADDI | AADDIW | AADDW | AAMOADDD | AAMOADDW | AAMOANDD | AAMOANDW | AAMOMAXD
  | AAMOMAXW | AAMOMAXUD | AAMOMAXUW | AAMOMIND | AAMOMINW | AAMOMINUD | AAMOMINUW | AAMOORD
  | AAMOORW | AAMOSWAPD | AAMOSWAPW | AAMOXORD | AAMOXORW | AAND | AANDI | AAUIPC | ABEQ | ABGE
  | ABGEU | ABLT | ABLTU | ABNE | ACSRRC | ACSRRCI | ACSRRS | ACSRRSI | ACSRRW | ACSRRWI | ADIV
  | ADIVU | ADIVUW | ADIVW | ADRET | AEBREAK | AECALL | AFADDD | AFADDQ | AFADDS | AFCLASSD
  | AFCLASSQ | AFCLASSS | AFCVTDL | AFCVTDLU | AFCVTDQ | AFCVTDS | AFCVTDW | AFCVTDWU | AFCVTLD
  | AFCVTLQ | AFCVTLS | AFCVTLUD | AFCVTLUQ | AFCVTLUS | AFCVTQD | AFCVTQL | AFCVTQLU | AFCVTQS
  | AFCVTQW | AFCVTQWU | AFCVTSD | AFCVTSL | AFCVTSLU | AFCVTSQ | AFCVTSW | AFCVTSWU | AFCVTWD
  | AFCVTWQ | AFCVTWS | AFCVTWUD | AFCVTWUQ | AFCVTWUS | AFDIVD | AFDIVQ | AFDIVS | AFENCE
  | AFENCETSO | AFEQD | AFEQQ | AFEQS | AFLD | AFLED | AFLEQ | AFLES | AFLQ | AFLTD | AFLTQ
  | AFLTS | AFLW | AFMADDD | AFMADDQ | AFMADDS | AFMAXD | AFMAXQ | AFMAXS | AFMIND | AFMINQ
  | AFMINS | AFMSUBD | AFMSUBQ | AFMSUBS | AFMULD | AFMULQ | AFMULS | AFMVDX | AFMVSX | AFMVWX
  | AFMVXD | AFMVXS | AFMVXW | AFNMADDD | AFNMADDQ | AFNMADDS | AFNMSUBD | AFNMSUBQ | AFNMSUBS
  | AFRCSR | AFRFLAGS | AFRRM | AFSCSR | AFSD | AFSFLAGS | AFSFLAGSI | AFSGNJD | AFSGNJQ
  | AFSGNJS | AFSGNJND | AFSGNJNQ | AFSGNJNS | AFSGNJXD | AFSGNJXQ | AFSGNJXS | AFSQ | AFSQRTD
  | AFSQRTQ | AFSQRTS | AFSRM | AFSRMI | AFSUBD | AFSUBQ | AFSUBS | AFSW | AJAL | AJALR | ALB
  | ALBU | ALD | ALH | ALHU | ALRD | ALRW | ALUI | ALW | ALWU | AMRET | AMUL | AMULH | AMULHSU
  | AMULHU | AMULW | AOR | AORI | APAUSE | ARDCYCLE | ARDCYCLEH | ARDINSTRET | ARDINSTRETH
  | ARDTIME | ARDTIMEH | AREM | AREMU | AREMUW | AREMW | ASB | ASBREAK | ASCD | ASCW | ASCALL
  | ASD | ASFENCEVMA | ASH | ASLL | ASLLI | ASLLIW | ASLLW | ASLT | ASLTI | ASLTIU | ASLTU | ASRA
  | ASRAI | ASRAIW | ASRAW | ASRET | ASRL | ASRLI | ASRLIW | ASRLW | ASUB | ASUBW | ASW | AWFI
  | AXOR | AXORI
deriving DecidableEq, Repr

open Mnemonic

/-- The `switch` of `encode` as data: every `case` label with the descriptor its
arm returns, in source order. -/
def encodeCases : List (Mnemonic × inst) := [
  (AADD, inst.mk 0x33 0x0 0x0 0 0x0),
  (AADDI, inst.mk 0x13 0x0 0x0 0 0x0),
  (AADDIW, inst.mk 0x1b 0x0 0x0 0 0x0),
  (AADDW, inst.mk 0x3b 0x0 0x0 0 0x0),
  (AAMOADDD, inst.mk 0x2f 0x3 0x0 0 0x0),
  (AAMOADDW, inst.mk 0x2f 0x2 0x0 0 0x0),
  (AAMOANDD, inst.mk 0x2f 0x3 0x0 1536 0x30),
  (AAMOANDW, inst.mk 0x2f 0x2 0x0 1536 0x30),
  (AAMOMAXD, inst.mk 0x2f 0x3 0x0 (-1536) 0x50),
  (AAMOMAXW, inst.mk 0x2f 0x2 0x0 (-1536) 0x50),
  (AAMOMAXUD, inst.mk 0x2f 0x3 0x0 (-512) 0x70),
  (AAMOMAXUW, inst.mk 0x2f 0x2 0x0 (-512) 0x70),
  (AAMOMIND, inst.mk 0x2f 0x3 0x0 (-2048) 0x40),
  (AAMOMINW, inst.mk 0x2f 0x2 0x0 (-2048) 0x40),
  (AAMOMINUD, inst.mk 0x2f 0x3 0x0 (-1024) 0x60),
  (AAMOMINUW, inst.mk 0x2f 0x2 0x0 (-1024) 0x60),
  (AAMOORD, inst.mk 0x2f 0x3 0x0 1024 0x20),
  (AAMOORW, inst.mk 0x2f 0x2 0x0 1024 0x20),
  (AAMOSWAPD, inst.mk 0x2f 0x3 0x0 128 0x4),
  (AAMOSWAPW, inst.mk 0x2f 0x2 0x0 128 0x4),
  (AAMOXORD, inst.mk 0x2f 0x3 0x0 512 0x10),
  (AAMOXORW, inst.mk 0x2f 0x2 0x0 512 0x10),
  (AAND, inst.mk 0x33 0x7 0x0 0 0x0),
  (AANDI, inst.mk 0x13 0x7 0x0 0 0x0),
  (AAUIPC, inst.mk 0x17 0x0 0x0 0 0x0),
  (ABEQ, inst.mk 0x63 0x0 0x0 0 0x0),
  (ABGE, inst.mk 0x63 0x5 0x0 0 0x0),
  (ABGEU, inst.mk 0x63 0x7 0x0 0 0x0),
  (ABLT, inst.mk 0x63 0x4 0x0 0 0x0),
  (ABLTU, inst.mk 0x63 0x6 0x0 0 0x0),
  (ABNE, inst.mk 0x63 0x1 0x0 0 0x0),
  (ACSRRC, inst.mk 0x73 0x3 0x0 0 0x0),
  (ACSRRCI, inst.mk 0x73 0x7 0x0 0 0x0),
  (ACSRRS, inst.mk 0x73 0x2 0x0 0 0x0),
  (ACSRRSI, inst.mk 0x73 0x6 0x0 0 0x0),
  (ACSRRW, inst.mk 0x73 0x1 0x0 0 0x0),
  (ACSRRWI, inst.mk 0x73 0x5 0x0 0 0x0),
  (ADIV, inst.mk 0x33 0x4 0x0 32 0x1),
  (ADIVU, inst.mk 0x33 0x5 0x0 32 0x1),
  (ADIVUW, inst.mk 0x3b 0x5 0x0 32 0x1),
  (ADIVW, inst.mk 0x3b 0x4 0x0 32 0x1),
  (ADRET, inst.mk 0x73 0x0 0x12 1970 0x3d),
  (AEBREAK, inst.mk 0x73 0x0 0x1 1 0x0),
  (AECALL, inst.mk 0x73 0x0 0x0 0 0x0),
  (AFADDD, inst.mk 0x53 0x0 0x0 32 0x1),
  (AFADDQ, inst.mk 0x53 0x0 0x0 96 0x3),
  (AFADDS, inst.mk 0x53 0x0 0x0 0 0x0),
  (AFCLASSD, inst.mk 0x53 0x1 0x0 (-480) 0x71),
  (AFCLASSQ, inst.mk 0x53 0x1 0x0 (-416) 0x73),
  (AFCLASSS, inst.mk 0x53 0x1 0x0 (-512) 0x70),
  (AFCVTDL, inst.mk 0x53 0x0 0x2 (-734) 0x69),
  (AFCVTDLU, inst.mk 0x53 0x0 0x3 (-733) 0x69),
  (AFCVTDQ, inst.mk 0x53 0x0 0x3 1059 0x21),
  (AFCVTDS, inst.mk 0x53 0x0 0x0 1056 0x21),
  (AFCVTDW, inst.mk 0x53 0x0 0x0 (-736) 0x69),
  (AFCVTDWU, inst.mk 0x53 0x0 0x1 (-735) 0x69),
  (AFCVTLD, inst.mk 0x53 0x0 0x2 (-990) 0x61),
  (AFCVTLQ, inst.mk 0x53 0x0 0x2 (-926) 0x63),
  (AFCVTLS, inst.mk 0x53 0x0 0x2 (-1022) 0x60),
  (AFCVTLUD, inst.mk 0x53 0x0 0x3 (-989) 0x61),
  (AFCVTLUQ, inst.mk 0x53 0x0 0x3 (-925) 0x63),
  (AFCVTLUS, inst.mk 0x53 0x0 0x3 (-1021) 0x60),
  (AFCVTQD, inst.mk 0x53 0x0 0x1 1121 0x23),
  (AFCVTQL, inst.mk 0x53 0x0 0x2 (-670) 0x6b),
  (AFCVTQLU, inst.mk 0x53 0x0 0x3 (-669) 0x6b),
  (AFCVTQS, inst.mk 0x53 0x0 0x0 1120 0x23),
  (AFCVTQW, inst.mk 0x53 0x0 0x0 (-672) 0x6b),
  (AFCVTQWU, inst.mk 0x53 0x0 0x1 (-671) 0x6b),
  (AFCVTSD, inst.mk 0x53 0x0 0x1 1025 0x20),
  (AFCVTSL, inst.mk 0x53 0x0 0x2 (-766) 0x68),
  (AFCVTSLU, inst.mk 0x53 0x0 0x3 (-765) 0x68),
  (AFCVTSQ, inst.mk 0x53 0x0 0x3 1027 0x20),
  (AFCVTSW, inst.mk 0x53 0x0 0x0 (-768) 0x68),
  (AFCVTSWU, inst.mk 0x53 0x0 0x1 (-767) 0x68),
  (AFCVTWD, inst.mk 0x53 0x0 0x0 (-992) 0x61),
  (AFCVTWQ, inst.mk 0x53 0x0 0x0 (-928) 0x63),
  (AFCVTWS, inst.mk 0x53 0x0 0x0 (-1024) 0x60),
  (AFCVTWUD, inst.mk 0x53 0x0 0x1 (-991) 0x61),
  (AFCVTWUQ, inst.mk 0x53 0x0 0x1 (-927) 0x63),
  (AFCVTWUS, inst.mk 0x53 0x0 0x1 (-1023) 0x60),
  (AFDIVD, inst.mk 0x53 0x0 0x0 416 0xd),
  (AFDIVQ, inst.mk 0x53 0x0 0x0 480 0xf),
  (AFDIVS, inst.mk 0x53 0x0 0x0 384 0xc),
  (AFENCE, inst.mk 0xf 0x0 0x0 0 0x0),
  (AFENCETSO, inst.mk 0xf 0x0 0x13 (-1997) 0x41),
  (AFEQD, inst.mk 0x53 0x2 0x0 (-1504) 0x51),
  (AFEQQ, inst.mk 0x53 0x2 0x0 (-1440) 0x53),
  (AFEQS, inst.mk 0x53 0x2 0x0 (-1536) 0x50),
  (AFLD, inst.mk 0x7 0x3 0x0 0 0x0),
  (AFLED, inst.mk 0x53 0x0 0x0 (-1504) 0x51),
  (AFLEQ, inst.mk 0x53 0x0 0x0 (-1440) 0x53),
  (AFLES, inst.mk 0x53 0x0 0x0 (-1536) 0x50),
  (AFLQ, inst.mk 0x7 0x4 0x0 0 0x0),
  (AFLTD, inst.mk 0x53 0x1 0x0 (-1504) 0x51),
  (AFLTQ, inst.mk 0x53 0x1 0x0 (-1440) 0x53),
  (AFLTS, inst.mk 0x53 0x1 0x0 (-1536) 0x50),
  (AFLW, inst.mk 0x7 0x2 0x0 0 0x0),
  (AFMADDD, inst.mk 0x43 0x0 0x0 32 0x1),
  (AFMADDQ, inst.mk 0x43 0x0 0x0 96 0x3),
  (AFMADDS, inst.mk 0x43 0x0 0x0 0 0x0),
  (AFMAXD, inst.mk 0x53 0x1 0x0 672 0x15),
  (AFMAXQ, inst.mk 0x53 0x1 0x0 736 0x17),
  (AFMAXS, inst.mk 0x53 0x1 0x0 640 0x14),
  (AFMIND, inst.mk 0x53 0x0 0x0 672 0x15),
  (AFMINQ, inst.mk 0x53 0x0 0x0 736 0x17),
  (AFMINS, inst.mk 0x53 0x0 0x0 640 0x14),
  (AFMSUBD, inst.mk 0x47 0x0 0x0 32 0x1),
  (AFMSUBQ, inst.mk 0x47 0x0 0x0 96 0x3),
  (AFMSUBS, inst.mk 0x47 0x0 0x0 0 0x0),
  (AFMULD, inst.mk 0x53 0x0 0x0 288 0x9),
  (AFMULQ, inst.mk 0x53 0x0 0x0 352 0xb),
  (AFMULS, inst.mk 0x53 0x0 0x0 256 0x8),
  (AFMVDX, inst.mk 0x53 0x0 0x0 (-224) 0x79),
  (AFMVSX, inst.mk 0x53 0x0 0x0 (-256) 0x78),
  (AFMVWX, inst.mk 0x53 0x0 0x0 (-256) 0x78),
  (AFMVXD, inst.mk 0x53 0x0 0x0 (-480) 0x71),
  (AFMVXS, inst.mk 0x53 0x0 0x0 (-512) 0x70),
  (AFMVXW, inst.mk 0x53 0x0 0x0 (-512) 0x70),
  (AFNMADDD, inst.mk 0x4f 0x0 0x0 32 0x1),
  (AFNMADDQ, inst.mk 0x4f 0x0 0x0 96 0x3),
  (AFNMADDS, inst.mk 0x4f 0x0 0x0 0 0x0),
  (AFNMSUBD, inst.mk 0x4b 0x0 0x0 32 0x1),
  (AFNMSUBQ, inst.mk 0x4b 0x0 0x0 96 0x3),
  (AFNMSUBS, inst.mk 0x4b 0x0 0x0 0 0x0),
  (AFRCSR, inst.mk 0x73 0x2 0x3 3 0x0),
  (AFRFLAGS, inst.mk 0x73 0x2 0x1 1 0x0),
  (AFRRM, inst.mk 0x73 0x2 0x2 2 0x0),
  (AFSCSR, inst.mk 0x73 0x1 0x3 3 0x0),
  (AFSD, inst.mk 0x27 0x3 0x0 0 0x0),
  (AFSFLAGS, inst.mk 0x73 0x1 0x1 1 0x0),
  (AFSFLAGSI, inst.mk 0x73 0x5 0x1 1 0x0),
  (AFSGNJD, inst.mk 0x53 0x0 0x0 544 0x11),
  (AFSGNJQ, inst.mk 0x53 0x0 0x0 608 0x13),
  (AFSGNJS, inst.mk 0x53 0x0 0x0 512 0x10),
  (AFSGNJND, inst.mk 0x53 0x1 0x0 544 0x11),
  (AFSGNJNQ, inst.mk 0x53 0x1 0x0 608 0x13),
  (AFSGNJNS, inst.mk 0x53 0x1 0x0 512 0x10),
  (AFSGNJXD, inst.mk 0x53 0x2 0x0 544 0x11),
  (AFSGNJXQ, inst.mk 0x53 0x2 0x0 608 0x13),
  (AFSGNJXS, inst.mk 0x53 0x2 0x0 512 0x10),
  (AFSQ, inst.mk 0x27 0x4 0x0 0 0x0),
  (AFSQRTD, inst.mk 0x53 0x0 0x0 1440 0x2d),
  (AFSQRTQ, inst.mk 0x53 0x0 0x0 1504 0x2f),
  (AFSQRTS, inst.mk 0x53 0x0 0x0 1408 0x2c),
  (AFSRM, inst.mk 0x73 0x1 0x2 2 0x0),
  (AFSRMI, inst.mk 0x73 0x5 0x2 2 0x0),
  (AFSUBD, inst.mk 0x53 0x0 0x0 160 0x5),
  (AFSUBQ, inst.mk 0x53 0x0 0x0 224 0x7),
  (AFSUBS, inst.mk 0x53 0x0 0x0 128 0x4),
  (AFSW, inst.mk 0x27 0x2 0x0 0 0x0),
  (AJAL, inst.mk 0x6f 0x0 0x0 0 0x0),
  (AJALR, inst.mk 0x67 0x0 0x0 0 0x0),
  (ALB, inst.mk 0x3 0x0 0x0 0 0x0),
  (ALBU, inst.mk 0x3 0x4 0x0 0 0x0),
  (ALD, inst.mk 0x3 0x3 0x0 0 0x0),
  (ALH, inst.mk 0x3 0x1 0x0 0 0x0),
  (ALHU, inst.mk 0x3 0x5 0x0 0 0x0),
  (ALRD, inst.mk 0x2f 0x3 0x0 256 0x8),
  (ALRW, inst.mk 0x2f 0x2 0x0 256 0x8),
  (ALUI, inst.mk 0x37 0x0 0x0 0 0x0),
  (ALW, inst.mk 0x3 0x2 0x0 0 0x0),
  (ALWU, inst.mk 0x3 0x6 0x0 0 0x0),
  (AMRET, inst.mk 0x73 0x0 0x2 770 0x18),
  (AMUL, inst.mk 0x33 0x0 0x0 32 0x1),
  (AMULH, inst.mk 0x33 0x1 0x0 32 0x1),
  (AMULHSU, inst.mk 0x33 0x2 0x0 32 0x1),
  (AMULHU, inst.mk 0x33 0x3 0x0 32 0x1),
  (AMULW, inst.mk 0x3b 0x0 0x0 32 0x1),
  (AOR, inst.mk 0x33 0x6 0x0 0 0x0),
  (AORI, inst.mk 0x13 0x6 0x0 0 0x0),
  (APAUSE, inst.mk 0xf 0x0 0x10 16 0x0),
  (ARDCYCLE, inst.mk 0x73 0x2 0x0 (-1024) 0x60),
  (ARDCYCLEH, inst.mk 0x73 0x2 0x0 (-896) 0x64),
  (ARDINSTRET, inst.mk 0x73 0x2 0x2 (-1022) 0x60),
  (ARDINSTRETH, inst.mk 0x73 0x2 0x2 (-894) 0x64),
  (ARDTIME, inst.mk 0x73 0x2 0x1 (-1023) 0x60),
  (ARDTIMEH, inst.mk 0x73 0x2 0x1 (-895) 0x64),
  (AREM, inst.mk 0x33 0x6 0x0 32 0x1),
  (AREMU, inst.mk 0x33 0x7 0x0 32 0x1),
  (AREMUW, inst.mk 0x3b 0x7 0x0 32 0x1),
  (AREMW, inst.mk 0x3b 0x6 0x0 32 0x1),
  (ASB, inst.mk 0x23 0x0 0x0 0 0x0),
  (ASBREAK, inst.mk 0x73 0x0 0x1 1 0x0),
  (ASCD, inst.mk 0x2f 0x3 0x0 384 0xc),
  (ASCW, inst.mk 0x2f 0x2 0x0 384 0xc),
  (ASCALL, inst.mk 0x73 0x0 0x0 0 0x0),
  (ASD, inst.mk 0x23 0x3 0x0 0 0x0),
  (ASFENCEVMA, inst.mk 0x73 0x0 0x0 288 0x9),
  (ASH, inst.mk 0x23 0x1 0x0 0 0x0),
  (ASLL, inst.mk 0x33 0x1 0x0 0 0x0),
  (ASLLI, inst.mk 0x13 0x1 0x0 0 0x0),
  (ASLLIW, inst.mk 0x1b 0x1 0x0 0 0x0),
  (ASLLW, inst.mk 0x3b 0x1 0x0 0 0x0),
  (ASLT, inst.mk 0x33 0x2 0x0 0 0x0),
  (ASLTI, inst.mk 0x13 0x2 0x0 0 0x0),
  (ASLTIU, inst.mk 0x13 0x3 0x0 0 0x0),
  (ASLTU, inst.mk 0x33 0x3 0x0 0 0x0),
  (ASRA, inst.mk 0x33 0x5 0x0 1024 0x20),
  (ASRAI, inst.mk 0x13 0x5 0x0 1024 0x20),
  (ASRAIW, inst.mk 0x1b 0x5 0x0 1024 0x20),
  (ASRAW, inst.mk 0x3b 0x5 0x0 1024 0x20),
  (ASRET, inst.mk 0x73 0x0 0x2 258 0x8),
  (ASRL, inst.mk 0x33 0x5 0x0 0 0x0),
  (ASRLI, inst.mk 0x13 0x5 0x0 0 0x0),
  (ASRLIW, inst.mk 0x1b 0x5 0x0 0 0x0),
  (ASRLW, inst.mk 0x3b 0x5 0x0 0 0x0),
  (ASUB, inst.mk 0x33 0x0 0x0 1024 0x20),
  (ASUBW, inst.mk 0x3b 0x0 0x0 1024 0x20),
  (ASW, inst.mk 0x23 0x2 0x0 0 0x0),
  (AWFI, inst.mk 0x73 0x0 0x5 261 0x8),
  (AXOR, inst.mk 0x33 0x4 0x0 0 0x0),
  (AXORI, inst.mk 0x13 0x4 0x0 0 0x0)]

/-- Encoder `encode(a obj.As) *inst`: the `switch` selects the first `case` whose
constant equals `a` and returns its descriptor; without a matching `case`
control reaches the final `return nil` (`none`). -/
def encode (A : Mnemonic → Int) (a : Int) : Option inst :=
  (encodeCases.find? (fun c => A c.1 == a)).map Prod.snd

/-- Valuation numbering the mnemonics consecutively in declaration order. -/
def ordinal (m : Mnemonic) : Int := (m.toCtorIdx : Int)

/-- Pairs of mnemonics that name the same instruction: the environment call and
breakpoint under their old and new names, and the single-precision moves
under their `S` and `W` names. -/
def aliases : List (Mnemonic × Mnemonic) :=
  [(AECALL, ASCALL), (AEBREAK, ASBREAK), (AFMVSX, AFMVWX), (AFMVXS, AFMVXW)]

/-- Check over every pair of an arm and a later arm of a `switch`: their
descriptors are equal only when their labels are an alias pair. -/
def equalOnlyAliases : List (Mnemonic × inst) → Bool
  | [] => true
  | c :: rest =>
    rest.all (fun c2 => !(decide (c.2 = c2.2)) ||
      (aliases.contains (c.1, c2.1) || aliases.contains (c2.1, c.1))) &&
      equalOnlyAliases rest

end riscv

/-! ## Package registry and symbol table (`internal/types/pkg.go`, `sym.go`) -/

namespace types

/-- Go `string` and `[]byte` values: finite sequences of bytes. -/
abbrev GoString := List Nat

/-- Go pointer (`*Pkg`, `*Sym`, ...): `none` is `nil`, `some p` the address `p`. -/
abbrev Ptr := Option Nat

/-- Go `map[string]V` read through `m[k]`: `none` when the key has no entry.  For
maps of pointers `none` is also the `nil` the code tests with `!= nil`. -/
abbrev GoMap (V : Type) := GoString → Option V

/-- Result of `make(map[string]V)`. -/
def GoMap.empty {V : Type} : GoMap V := fun _ => none

/-- Map assignment `m[k] = v`. -/
def GoMap.set {V : Type} (m : GoMap V) (k : GoString) (v : V) : GoMap V :=
  fun j => if j = k then some v else m j

/-- Go comparison `x < y` on strings: lexicographic on bytes, a proper prefix
first. -/
def stringLess : GoString → GoString → Bool
  | [], [] => false
  | [], _ :: _ => true
  | _ :: _, [] => false
  | x :: xs, y :: ys => if x < y then true else if y < x then false else stringLess xs ys

/-- Struct `Pkg` of `pkg.go`.  `Syms` is the made map `map[string]*Sym`. -/
structure Pkg where
  Path : GoString
  Name : GoString
  Prefix : GoString
  Syms : GoMap Nat
  Pathsym : Ptr
  Direct : Bool

/-- Struct `Sym` of `sym.go`.  `Pkg` is a `*Pkg`, `Def` an interface value
(`none` when nil), `flags` the `bitset8`. -/
structure Sym where
  Linkname : GoString
  Pkg : Ptr
  Name : GoString
  Def : Ptr
  flags : Nat

/-- Ways in which the modelled functions stop instead of returning. -/
inductive Fault where
  /-- `panic(fmt.Sprintf("conflicting package names %s and %s for path %q", ...))`. -/
  | conflictingPackageNames (registered given path : GoString)
  /-- Runtime panic of an index expression `s[i]` with `i` out of range. -/
  | indexOutOfRange
  /-- Runtime panic of a slice expression `s[:n]` with `n` above the capacity. -/
  | sliceBoundsOutOfRange
  /-- Runtime panic of a field access through a nil pointer. -/
  | nilDereference
  /-- Call `base.Fatalf("nil symbol")`: the fatal internal error that aborts the
  compilation. -/
  | fatalNilSymbol
deriving DecidableEq, Repr

/-- Functions of other packages called by the code: `objabi.PathToPrefix`,
`utf8.DecodeRuneInString` (rune and width) and `unicode.IsUpper`. -/
structure Extern where
  PathToPrefix : GoString → GoString
  DecodeRuneInString : GoString → Nat × Nat
  IsUpper : Nat → Bool

/-- Sample instance of the external functions: identity path escaping, one-byte
runes, no upper-case letter outside ASCII. -/
def Extern.plain : Extern :=
  { PathToPrefix := fun p => p, DecodeRuneInString := fun s => (s.headD 0, 1),
    IsUpper := fun _ => false }

/-- Program state of package `types`: the `Pkg` and `Sym` objects by address with
the next address `new(Pkg)` / `&Sym{...}` hands out, and the package-level
variables `pkgMap`, `nopkg`, `LocalPkg` and `internedStrings`. -/
structure State where
  pkgs : Nat → Pkg
  syms : Nat → Sym
  nextPkg : Nat
  nextSym : Nat
  pkgMap : GoMap Nat
  nopkg : Nat
  LocalPkg : Ptr
  internedStrings : GoMap GoString

/-- Zero value of `Pkg` carrying a made symbol map, the value of `&Pkg{Syms: make(...)}`. -/
def Pkg.zero : Pkg :=
  { Path := [], Name := [], Prefix := [], Syms := GoMap.empty, Pathsym := none, Direct := false }

/-- Zero value of `Sym`. -/
def Sym.zero : Sym :=
  { Linkname := [], Pkg := none, Name := [], Def := none, flags := 0 }

/-- State after package initialisation: `pkgMap` and `internedStrings` are empty
maps, `nopkg` is the one allocated `Pkg` (address 0), `LocalPkg` is nil. -/
def State.init : State :=
  { pkgs := fun _ => Pkg.zero, syms := fun _ => Sym.zero, nextPkg := 1, nextSym := 0,
    pkgMap := GoMap.empty, nopkg := 0, LocalPkg := none, internedStrings := GoMap.empty }

/-- The string literal `"go.shape"`. -/
def goShape : GoString := [103, 111, 46, 115, 104, 97, 112, 101]

/-- Function `NewPkg(path, name string) *Pkg`. -/
def NewPkg (X : Extern) (σ : State) (path name : GoString) : Except Fault (Nat × State) :=
  match σ.pkgMap path with
  | some p =>
    if name ≠ [] ∧ (σ.pkgs p).Name ≠ name then
      .error (.conflictingPackageNames (σ.pkgs p).Name name path)
    else
      .ok (p, σ)
  | none =>
    let p := σ.nextPkg
    let pkg : Pkg :=
      { Path := path, Name := name,
        Prefix := if path = goShape then path else X.PathToPrefix path,
        Syms := GoMap.empty, Pathsym := none, Direct := false }
    .ok (p, { σ with pkgs := Function.update σ.pkgs p pkg, nextPkg := p + 1,
                     pkgMap := σ.pkgMap.set path p })

/-- The receiver adjustment `if pkg == nil { pkg = nopkg }`. -/
def State.recv (σ : State) (pkg : Ptr) : Nat :=
  match pkg with
  | none => σ.nopkg
  | some p => p

/-- Method `(pkg *Pkg) LookupOK(name string) (s *Sym, existed bool)`. -/
def LookupOK (σ : State) (pkg : Ptr) (name : GoString) : (Nat × Bool) × State :=
  let pkg := σ.recv pkg
  match (σ.pkgs pkg).Syms name with
  | some s => ((s, true), σ)
  | none =>
    let s := σ.nextSym
    let sym : Sym := { Linkname := [], Pkg := some pkg, Name := name, Def := none, flags := 0 }
    ((s, false),
      { σ with syms := Function.update σ.syms s sym, nextSym := s + 1,
               pkgs := Function.update σ.pkgs pkg
                 { σ.pkgs pkg with Syms := (σ.pkgs pkg).Syms.set name s } })

/-- Method `(pkg *Pkg) Lookup(name string) *Sym`. -/
def Lookup (σ : State) (pkg : Ptr) (name : GoString) : Nat × State :=
  ((LookupOK σ pkg name).1.1, (LookupOK σ pkg name).2)

/-- Function `InternString(b []byte) string`. -/
def InternString (σ : State) (b : GoString) : GoString × State :=
  match σ.internedStrings b with
  | some s => (s, σ)
  | none => (b, { σ with internedStrings := σ.internedStrings.set b b })

/-- Method `(pkg *Pkg) LookupBytes(name []byte) *Sym`. -/
def LookupBytes (σ : State) (pkg : Ptr) (name : GoString) : Nat × State :=
  let pkg := σ.recv pkg
  match (σ.pkgs pkg).Syms name with
  | some s => (s, σ)
  | none => Lookup (InternString σ name).2 (some pkg) (InternString σ name).1

/-- Built-in `copy(dst, src)`: overwrites the first `min(len(dst), len(src))`
elements of `dst`. -/
def copy (dst src : GoString) : GoString :=
  src.take dst.length ++ dst.drop src.length

/-- Decimal digits of a natural number as ASCII bytes. -/
def decimal (n : Nat) : GoString :=
  (Nat.toDigits 10 n).map Char.toNat

/-- Library call `strconv.AppendInt(dst, i, 10)`: `dst` followed by the base-10
text of `i`, with a leading `-` for negative `i`. -/
def AppendInt (dst : GoString) (i : Int) : GoString :=
  if i < 0 then dst ++ '-'.toNat :: decimal i.natAbs else dst ++ decimal i.toNat

/-- Method `(pkg *Pkg) LookupNum(prefix string, n int) *Sym`; `pfx` is the
parameter `prefix`. -/
def LookupNum (σ : State) (pkg : Ptr) (pfx : GoString) (n : Int) : Except Fault (Nat × State) :=
  let buf := copy (List.replicate 20 0) pfx
  if pfx.length > 20 then .error .sliceBoundsOutOfRange
  else .ok (LookupBytes σ pkg (AppendInt (buf.take pfx.length) n))

/-- Function `IsExported(name string) bool`. -/
def IsExported (X : Extern) (name : GoString) : Except Fault Bool :=
  match name with
  | [] => .error .indexOutOfRange
  | r :: _ =>
    if r < 0x80 then .ok (decide ('A'.toNat ≤ r ∧ r ≤ 'Z'.toNat))
    else .ok (X.IsUpper (X.DecodeRuneInString name).1)

/-- Method `(pkg *Pkg) Selector(name string) *Sym`. -/
def Selector (X : Extern) (σ : State) (pkg : Ptr) (name : GoString) :
    Except Fault (Nat × State) :=
  match IsExported X name with
  | .error e => .error e
  | .ok true => .ok (Lookup σ σ.LocalPkg name)
  | .ok false => .ok (Lookup σ pkg name)

/-- Method `(a *Sym) Less(b *Sym) bool`. -/
def Less (X : Extern) (σ : State) (a b : Ptr) : Except Fault Bool :=
  if a = b then .ok false
  else
    match a, b with
    | none, _ => .ok true
    | some _, none => .ok false
    | some pa, some pb =>
      match IsExported X (σ.syms pa).Name with
      | .error e => .error e
      | .ok ea =>
        match IsExported X (σ.syms pb).Name with
        | .error e => .error e
        | .ok eb =>
          if ea ≠ eb then .ok ea
          else if (σ.syms pa).Name ≠ (σ.syms pb).Name then
            .ok (stringLess (σ.syms pa).Name (σ.syms pb).Name)
          else if ea = false then
            match (σ.syms pa).Pkg with
            | none => .error .nilDereference
            | some qa =>
              match (σ.syms pb).Pkg with
              | none => .error .nilDereference
              | some qb => .ok (stringLess (σ.pkgs qa).Path (σ.pkgs qb).Path)
          else .ok false

/-- One call of a lookup operation of the symbol table that returns: `Lookup`,
`LookupOK`, `LookupBytes`, `LookupNum` or `Selector` takes the state `σ` to the
second state. -/
inductive LookupStep (X : Extern) (σ : State) : State → Prop where
  | lookup (pkg : Ptr) (name : GoString) : LookupStep X σ (Lookup σ pkg name).2
  | lookupOK (pkg : Ptr) (name : GoString) : LookupStep X σ (LookupOK σ pkg name).2
  | lookupBytes (pkg : Ptr) (name : GoString) : LookupStep X σ (LookupBytes σ pkg name).2
  | lookupNum (pkg : Ptr) (pfx : GoString) (n : Int) (r : Nat × State) :
      LookupNum σ pkg pfx n = .ok r → LookupStep X σ r.2
  | selector (pkg : Ptr) (name : GoString) (r : Nat × State) :
      Selector X σ pkg name = .ok r → LookupStep X σ r.2

/-- States the package can be in: the initial state, closed under returning
calls of `NewPkg`, calls of `InternString`, assignments to the variable
`LocalPkg`, and the lookup operations. -/
inductive Reachable (X : Extern) : State → Prop where
  | init : Reachable X State.init
  | newPkg (σ : State) (path name : GoString) (r : Nat × State) :
      Reachable X σ → NewPkg X σ path name = .ok r → Reachable X r.2
  | setLocalPkg (σ : State) (p : Ptr) :
      Reachable X σ → Reachable X { σ with LocalPkg := p }
  | internString (σ : State) (b : GoString) :
      Reachable X σ → Reachable X (InternString σ b).2
  | step (σ σ1 : State) : Reachable X σ → LookupStep X σ σ1 → Reachable X σ1

/-- Symbol-table invariant: an entry stored under key `n` in the symbol map of
the package at `p` is an allocated `Sym` whose `Name` is `n` and whose `Pkg` is
`p`. -/
def SymInv (σ : State) : Prop :=
  ∀ p n s, (σ.pkgs p).Syms n = some s →
    s < σ.nextSym ∧ (σ.syms s).Name = n ∧ (σ.syms s).Pkg = some p

/-- Every symbol-map entry of `σ` is still present in `σ1`, bound to the same
unchanged `Sym`. -/
def EntriesKept (σ σ1 : State) : Prop :=
  ∀ p n s, (σ.pkgs p).Syms n = some s →
    (σ1.pkgs p).Syms n = some s ∧ σ1.syms s = σ.syms s

/-- Operand on which `Less` is meant to be used: nil, or a `Sym` with a
non-empty `Name` and a non-nil `Pkg`. -/
def Comparable (σ : State) (a : Ptr) : Prop :=
  ∀ p, a = some p → (σ.syms p).Name ≠ [] ∧ (σ.syms p).Pkg ≠ none

/-- A list of symbols sorted by `Less`, as `sort.Slice` with `Less` leaves it: no
element is `Less` than an element before it. -/
def SortedByLess (X : Extern) (σ : State) (l : List Ptr) : Prop :=
  l.Pairwise (fun x y => Less X σ y x ≠ .ok true)

/-- Sample state: from the initial state, `NewPkg("p", "p")` and `NewPkg("q", "q")`
(addresses 1 and 2), then `Lookup` of `"F"` in both packages (symbols 0 and 1)
and of `"x"` in both packages (symbols 2 and 3). -/
def State.sample : State :=
  match NewPkg Extern.plain State.init [112] [112] with
  | .error _ => State.init
  | .ok (p, σ1) =>
    match NewPkg Extern.plain σ1 [113] [113] with
    | .error _ => σ1
    | .ok (q, σ2) =>
      (Lookup (Lookup (Lookup (Lookup σ2 (some p) [70]).2 (some q) [70]).2
        (some p) [120]).2 (some q) [120]).2

/-- Intern-pool invariant: every key of `internedStrings` maps to a string with
the bytes of the key. -/
def InternInv (σ : State) : Prop :=
  ∀ k v, σ.internedStrings k = some v → v = k

/-- Method `LookupNum` with the state the call leaves behind, also when it
panics: the statements of the body in order, the panic of `buf[:len(prefix)]`
coming before the call of `LookupBytes`, the only statement that reads or
writes the state. -/
def LookupNum.run (σ : State) (pkg : Ptr) (pfx : GoString) (n : Int) :
    Except Fault Nat × State :=
  let buf := copy (List.replicate 20 0) pfx
  if pfx.length > 20 then (.error .sliceBoundsOutOfRange, σ)
  else
    let b := AppendInt (buf.take pfx.length) n
    (.ok (LookupBytes σ pkg b).1, (LookupBytes σ pkg b).2)

/-- Value of a sequence of ASCII decimal digits. -/
def decimalValue (ds : GoString) : Nat :=
  ds.foldl (fun acc d => 10 * acc + (d - '0'.toNat)) 0

/-- Flag constants of `sym.go`: `1 << iota` for `symOnExportList`, `symUniq`,
`symSiggen`, `symAsm`, `symFunc`. -/
def symOnExportList : Nat := 1 <<< 0

def symUniq : Nat := 1 <<< 1

def symSiggen : Nat := 1 <<< 2

def symAsm : Nat := 1 <<< 3

def symFunc : Nat := 1 <<< 4

/-- Method `(sym *Sym) Func() bool`, `sym.flags&symFunc != 0`. -/
def Func (σ : State) (sym : Ptr) : Except Fault Bool :=
  match sym with
  | none => .error .nilDereference
  | some p => .ok ((σ.syms p).flags &&& symFunc != 0)

/-- Linker interface used by `sym.go`: the constants `obj.ABI0` and
`obj.ABIInternal` and the functions `base.Linkname(name, abi)` and
`base.PkgLinksym(prefix, name, abi)`, which return a `*obj.LSym`. -/
structure LinkEnv where
  ABI0 : Nat
  ABIInternal : Nat
  Linkname : GoString → Nat → Ptr
  PkgLinksym : GoString → GoString → Nat → Ptr

/-- Sample linker interface: `ABI0 = 0`, `ABIInternal = 1`, and linker symbols
numbered by the length of their name and the ABI. -/
def LinkEnv.plain : LinkEnv :=
  { ABI0 := 0, ABIInternal := 1,
    Linkname := fun name abi => some (2 * name.length + abi),
    PkgLinksym := fun pfx name abi => some (2 * (pfx.length + 1 + name.length) + abi) }

/-- Method `(sym *Sym) LinksymABI(abi obj.ABI) *obj.LSym`. -/
def LinksymABI (E : LinkEnv) (σ : State) (sym : Ptr) (abi : Nat) : Except Fault Ptr :=
  match sym with
  | none => .error .fatalNilSymbol
  | some p =>
    if (σ.syms p).Linkname ≠ [] then .ok (E.Linkname (σ.syms p).Linkname abi)
    else
      match (σ.syms p).Pkg with
      | none => .error .nilDereference
      | some q => .ok (E.PkgLinksym (σ.pkgs q).Prefix (σ.syms p).Name abi)

/-- Method `(sym *Sym) Linksym() *obj.LSym`. -/
def Linksym (E : LinkEnv) (σ : State) (sym : Ptr) : Except Fault Ptr :=
  match Func σ sym with
  | .error e => .error e
  | .ok true => LinksymABI E σ sym E.ABIInternal
  | .ok false => LinksymABI E σ sym E.ABI0

/-- Modelled from the spec: the method `set(mask, b)` of the flag type `bitset8`,
which is not among the sources.  The flags are a bitset with exact per-bit
semantics: `set` gives the bits of `mask` the value `b` (`f | mask` when `b`,
`f &^ mask`, written `f ^ (f & mask)`, otherwise) and leaves every other bit
as it was. -/
def bitset8.set (f mask : Nat) (b : Bool) : Nat :=
  if b then f ||| mask else f ^^^ (f &&& mask)

/-- Method `(sym *Sym) OnExportList() bool`. -/
def OnExportList (σ : State) (sym : Ptr) : Except Fault Bool :=
  match sym with
  | none => .error .nilDereference
  | some p => .ok ((σ.syms p).flags &&& symOnExportList != 0)

/-- Method `(sym *Sym) Uniq() bool`. -/
def Uniq (σ : State) (sym : Ptr) : Except Fault Bool :=
  match sym with
  | none => .error .nilDereference
  | some p => .ok ((σ.syms p).flags &&& symUniq != 0)

/-- Method `(sym *Sym) Siggen() bool`. -/
def Siggen (σ : State) (sym : Ptr) : Except Fault Bool :=
  match sym with
  | none => .error .nilDereference
  | some p => .ok ((σ.syms p).flags &&& symSiggen != 0)

/-- Method `(sym *Sym) Asm() bool`. -/
def Asm (σ : State) (sym : Ptr) : Except Fault Bool :=
  match sym with
  | none => .error .nilDereference
  | some p => .ok ((σ.syms p).flags &&& symAsm != 0)

/-- Statement `sym.flags.set(mask, b)` of the five setters. -/
def setFlag (σ : State) (sym : Ptr) (mask : Nat) (b : Bool) : Except Fault State :=
  match sym with
  | none => .error .nilDereference
  | some p =>
    .ok { σ with
          syms := Function.update σ.syms p
            { σ.syms p with flags := bitset8.set (σ.syms p).flags mask b } }

/-- Method `(sym *Sym) SetOnExportList(b bool)`. -/
def SetOnExportList (σ : State) (sym : Ptr) (b : Bool) : Except Fault State :=
  setFlag σ sym symOnExportList b

/-- Method `(sym *Sym) SetUniq(b bool)`. -/
def SetUniq (σ : State) (sym : Ptr) (b : Bool) : Except Fault State :=
  setFlag σ sym symUniq b

/-- Method `(sym *Sym) SetSiggen(b bool)`. -/
def SetSiggen (σ : State) (sym : Ptr) (b : Bool) : Except Fault State :=
  setFlag σ sym symSiggen b

/-- Method `(sym *Sym) SetAsm(b bool)`. -/
def SetAsm (σ : State) (sym : Ptr) (b : Bool) : Except Fault State :=
  setFlag σ sym symAsm b

/-- Method `(sym *Sym) SetFunc(b bool)`. -/
def SetFunc (σ : State) (sym : Ptr) (b : Bool) : Except Fault State :=
  setFlag σ sym symFunc b

/-- The three registries of package `types`. -/
inductive Registry where
  | pkgMap | Syms | internedStrings
deriving DecidableEq, Repr

/-- Steps of a function body as far as locking is concerned: `Lock` and `Unlock`
of `internedStringsmu`, the only mutex of the package, and the reads of and
inserts into a registry. -/
inductive Op where
  | lock
  | unlock
  | read (r : Registry)
  | insert (r : Registry)
deriving DecidableEq, Repr

/-- Steps of `NewPkg(path, name)` in order: the read `pkgMap[path]` and, when no
package is registered, the insert `pkgMap[path] = p`. -/
def NewPkg.ops (σ : State) (path : GoString) : List Op :=
  match σ.pkgMap path with
  | some _ => [Op.read Registry.pkgMap]
  | none => [Op.read Registry.pkgMap, Op.insert Registry.pkgMap]

/-- Steps of `pkg.LookupOK(name)` in order: the read `pkg.Syms[name]` and, when
there is no entry, the insert `pkg.Syms[name] = s`. -/
def LookupOK.ops (σ : State) (pkg : Ptr) (name : GoString) : List Op :=
  match (σ.pkgs (σ.recv pkg)).Syms name with
  | some _ => [Op.read Registry.Syms]
  | none => [Op.read Registry.Syms, Op.insert Registry.Syms]

/-- Steps of `InternString(b)` in order: `Lock`, the read
`internedStrings[string(b)]`, the insert `internedStrings[s] = s` when the
read finds nothing, `Unlock`. -/
def InternString.ops (σ : State) (b : GoString) : List Op :=
  match σ.internedStrings b with
  | some _ => [Op.lock, Op.read Registry.internedStrings, Op.unlock]
  | none =>
    [Op.lock, Op.read Registry.internedStrings, Op.insert Registry.internedStrings,
      Op.unlock]

/-- Whether every insert of a sequence of steps happens while the mutex is held;
`held` says whether it is held before the first step. -/
def insertsLocked (held : Bool) : List Op → Bool
  | [] => true
  | Op.lock :: rest => insertsLocked true rest
  | Op.unlock :: rest => insertsLocked false rest
  | Op.read _ :: rest => insertsLocked held rest
  | Op.insert _ :: rest => held && insertsLocked held rest

/-- Whether the mutex is held after a sequence of steps. -/
def heldAfter (held : Bool) : List Op → Bool
  | [] => held
  | Op.lock :: rest => heldAfter true rest
  | Op.unlock :: rest => heldAfter false rest
  | Op.read _ :: rest => heldAfter held rest
  | Op.insert _ :: rest => heldAfter held rest

/-- Bytes of an ASCII string literal. -/
def str (s : String) : GoString :=
  s.toList.map Char.toNat

end types

/-! ## RISC-V backend hooks (`internal/riscv64/gsubr.go`, `galign.go`) -/

namespace riscv64

/-- Operand `obj.Addr` with the fields the backend sets: `Typ` is the field
`Type`, `Offset` the value of a constant operand. -/
structure Addr where
  Typ : Nat
  Reg : Int
  Offset : Int
deriving DecidableEq, Repr

/-- Instruction `obj.Prog`: opcode `As`, operands `From`, `Reg` and `To`. -/
structure Prog where
  As : Int
  From : Addr
  Reg : Int
  To : Addr
deriving DecidableEq, Repr

/-- Constants of the packages `obj` and `riscv` named by the backend:
`obj.TYPE_CONST`, `obj.TYPE_REG`, `riscv.REG_ZERO`, `riscv.REG_SP` and the
address of `riscv.LinkRISCV64`. -/
structure Consts where
  TYPE_CONST : Nat
  TYPE_REG : Nat
  REG_ZERO : Int
  REG_SP : Int
  LinkRISCV64 : Nat

/-- Sample values of the constants. -/
def Consts.plain : Consts :=
  { TYPE_CONST := 3, TYPE_REG := 7, REG_ZERO := 32, REG_SP := 34, LinkRISCV64 := 1 }

/-- Zero value of `obj.Addr`. -/
def Addr.zero : Addr := { Typ := 0, Reg := 0, Offset := 0 }

/-- Method `Prog(as)` of the instruction stream `objw.Progs`.  The package `objw`
is outside the sources, so the method is a parameter of the backend: from
the stream, as the list of its instructions, and the opcode it gives the
instruction it returns, as a position in the stream, and the stream
afterwards. -/
abbrev ProgMethod := List Prog → Int → Nat × List Prog

/-- Fresh instruction with opcode `as` and zero operands. -/
def Prog.fresh (as : Int) : Prog :=
  { As := as, From := Addr.zero, Reg := 0, To := Addr.zero }

/-- Sample of the method `Prog(as)`: the fresh instruction with opcode `as` is
appended to the stream and returned. -/
def ProgMethod.append : ProgMethod :=
  fun pp as => (pp.length, pp ++ [Prog.fresh as])

/-- Sample of the method `Prog(as)` on a stream with a pending stack-map index
change: the `PCDATA` instruction `d` that records the change is appended
first, then the fresh instruction with opcode `as`, which is returned. -/
def ProgMethod.afterPCDATA (d : Prog) : ProgMethod :=
  fun pp as => (pp.length + 1, pp ++ [d, Prog.fresh as])

/-- Assignment through the instruction pointer `p`: the instruction at position
`p` of the stream is replaced by `f` of it. -/
def assign (pp : List Prog) (p : Nat) (f : Prog → Prog) : List Prog :=
  match pp.get? p with
  | some i => pp.set p (f i)
  | none => pp

/-- Function `ginsnop(pp *objw.Progs) *obj.Prog` of `gsubr.go`; `Prg` is the method
`pp.Prog`. -/
def ginsnop (K : Consts) (A : riscv.Mnemonic → Int) (Prg : ProgMethod) (pp : List Prog) :
    Nat × List Prog :=
  let p := (Prg pp (A riscv.Mnemonic.AADD)).1
  let pp1 := (Prg pp (A riscv.Mnemonic.AADD)).2
  let pp2 := assign pp1 p (fun i => { i with From := { i.From with Typ := K.TYPE_CONST } })
  let pp3 := assign pp2 p (fun i => { i with Reg := K.REG_ZERO })
  let pp4 := assign pp3 p
    (fun i => { i with To := { Typ := K.TYPE_REG, Reg := K.REG_ZERO, Offset := 0 } })
  (p, pp4)

/-- Functions of package `riscv64` that `Init` stores in the capability table. -/
inductive Hook where
  | ginsnop | zeroRange | ssaMarkMoves | ssaGenValue | ssaGenBlock | loadRegResult
  | spillArgReg
deriving DecidableEq, Repr

/-- Capability table `ssagen.ArchInfo`: link descriptor, stack-pointer register,
maximum width, soft-float flag and the generation hooks (`none` is a nil
function value). -/
structure ArchInfo where
  LinkArch : Option Nat
  REGSP : Int
  MAXWIDTH : Int
  SoftFloat : Bool
  Ginsnop : Option Hook
  ZeroRange : Option Hook
  SSAMarkMoves : Option Hook
  SSAGenValue : Option Hook
  SSAGenBlock : Option Hook
  LoadRegResult : Option Hook
  SpillArgReg : Option Hook
deriving DecidableEq, Repr

/-- Zero value of `ssagen.ArchInfo`. -/
def ArchInfo.zero : ArchInfo :=
  { LinkArch := none, REGSP := 0, MAXWIDTH := 0, SoftFloat := false, Ginsnop := none,
    ZeroRange := none, SSAMarkMoves := none, SSAGenValue := none, SSAGenBlock := none,
    LoadRegResult := none, SpillArgReg := none }

/-- Function `Init(arch *ssagen.ArchInfo)` of `galign.go`. -/
def Init (K : Consts) (arch : ArchInfo) : ArchInfo :=
  { arch with
    LinkArch := some K.LinkRISCV64,
    REGSP := K.REG_SP,
    MAXWIDTH := 1 <<< 50,
    Ginsnop := some Hook.ginsnop,
    ZeroRange := some Hook.zeroRange,
    SSAMarkMoves := some Hook.ssaMarkMoves,
    SSAGenValue := some Hook.ssaGenValue,
    SSAGenBlock := some Hook.ssaGenBlock,
    LoadRegResult := some Hook.loadRegResult,
    SpillArgReg := some Hook.spillArgReg }

end riscv64

/-! ## Architecture selection (`main.go`) -/

namespace cmd

open types

/-- Initializer functions named in `archInits`: constructor `x` is the function
`x.Init`. -/
inductive InitFunc where
  | x86 | amd64 | arm | arm64 | loong64 | mips | mips64 | ppc64 | riscv64 | s390x | wasm
deriving DecidableEq, Repr

/-- Map literal `archInits`, key by key in source order. -/
def archInits : List (GoString × InitFunc) := [
  (str "386", InitFunc.x86),
  (str "amd64", InitFunc.amd64),
  (str "arm", InitFunc.arm),
  (str "arm64", InitFunc.arm64),
  (str "loong64", InitFunc.loong64),
  (str "mips", InitFunc.mips),
  (str "mipsle", InitFunc.mips),
  (str "mips64", InitFunc.mips64),
  (str "mips64le", InitFunc.mips64),
  (str "ppc64", InitFunc.ppc64),
  (str "ppc64le", InitFunc.ppc64),
  (str "riscv64", InitFunc.riscv64),
  (str "s390x", InitFunc.s390x),
  (str "wasm", InitFunc.wasm)]

/-- Calls that `main` makes on other packages and on the process. -/
inductive Event where
  /-- Call `log.SetFlags(flag)`. -/
  | logSetFlags (flag : Int)
  /-- Call `log.SetPrefix(p)`. -/
  | logSetPrefix (p : GoString)
  /-- Call `buildcfg.Check()`. -/
  | buildcfgCheck
  /-- Call `fmt.Fprintf(os.Stderr, "compile: unknown architecture %q\n", arch)`. -/
  | stderrUnknownArchitecture (arch : GoString)
  /-- Call `os.Exit(code)`. -/
  | osExit (code : Int)
  /-- Call `gc.Main(archInit)`. -/
  | gcMain (archInit : InitFunc)
  /-- Call `base.Exit(code)`. -/
  | baseExit (code : Int)
deriving DecidableEq, Repr

/-- Function `main` as the sequence of calls it makes when the variable
`buildcfg.GOARCH` holds `GOARCH` and the calls `buildcfg.Check()` and
`gc.Main(archInit)` return; the sequence ends with the call that exits the
process. -/
def main (GOARCH : GoString) : List Event :=
  [Event.logSetFlags 0, Event.logSetPrefix (str "compile: "), Event.buildcfgCheck] ++
    match List.lookup GOARCH archInits with
    | none => [Event.stderrUnknownArchitecture GOARCH, Event.osExit 2]
    | some archInit => [Event.gcMain archInit, Event.baseExit 0]

end cmd

/-! ## Hard-coded coverage package IDs (`src_internal/coverage/pkid.go`) -/

namespace coverage

open types

/-- Array `rtPkgs`. -/
def rtPkgs : List GoString := [
  str "src_internal/cpu",
  str "src_internal/goarch",
  str "runtime/src_internal/atomic",
  str "src_internal/goos",
  str "src_internal/chacha8rand",
  str "runtime/src_internal/sys",
  str "src_internal/abi",
  str "runtime/src_internal/math",
  str "src_internal/bytealg",
  str "src_internal/goexperiment",
  str "runtime/src_internal/syscall",
  str "runtime"]

/-- Constant `NotHardCoded`. -/
def NotHardCoded : Int := -1

/-- Loop `for k, p := range rtPkgs` of `HardCodedPkgID`, from index `k` over the
remaining elements, followed by the final `return NotHardCoded`. -/
def HardCodedPkgID.loop (pkgpath : GoString) : Nat → List GoString → Int
  | _, [] => NotHardCoded
  | k, p :: rest =>
    if p = pkgpath then (0 - (k : Int)) - 2 else HardCodedPkgID.loop pkgpath (k + 1) rest

/-- Function `HardCodedPkgID(pkgpath string) int`. -/
def HardCodedPkgID (pkgpath : GoString) : Int :=
  HardCodedPkgID.loop pkgpath 0 rtPkgs

end coverage

/-! ## Theorems: instruction encoder -/

namespace riscv

open Mnemonic

theorem ordinal_injective : Function.Injective ordinal := by
  intro a b h
  have h2 : a.toCtorIdx = b.toCtorIdx := by simpa [ordinal] using h
  have h3 := congrArg Mnemonic.ofNat h2
  simpa [Mnemonic.ofNat_toCtorIdx] using h3

theorem ordinal_lt (m : Mnemonic) : ordinal m < 212 := by
  cases m <;> decide

/-- Every mnemonic constant labels a `case` of the `switch`. -/
theorem mem_encodeCases (m : Mnemonic) : (encodeCases.map Prod.fst).contains m = true := by
  cases m <;> rfl

theorem encodeCases_length : encodeCases.length = 212 := rfl

/-- With pairwise distinct constants the `switch` selects the arm labelled `m`. -/
theorem encode_of_injective (A : Mnemonic → Int) (hA : Function.Injective A) (m : Mnemonic) :
    encode A (A m) = (encodeCases.find? (fun c => c.1 == m)).map Prod.snd := by
  unfold encode
  congr 2
  funext c
  by_cases h : c.1 = m
  · simp [h]
  · have hne : A c.1 ≠ A m := fun e => h (hA e)
    simp [h, hne]

/-- A descriptor is returned exactly for the values of the labelled constants. -/
theorem encode_isSome_iff (A : Mnemonic → Int) (a : Int) :
    (encode A a).isSome = true ↔ ∃ m, A m = a := by
  unfold encode
  rw [Option.isSome_map', List.find?_isSome]
  constructor
  · rintro ⟨c, _, hc⟩
    exact ⟨c.1, by simpa using hc⟩
  · rintro ⟨m, hm⟩
    have hmem := mem_encodeCases m
    rw [List.contains_iff_exists_mem_beq] at hmem
    obtain ⟨m2, hm2, hbeq⟩ := hmem
    have hmm : m = m2 := by simpa using hbeq
    subst hmm
    rw [List.mem_map] at hm2
    have hmem := hm2
    obtain ⟨c, hc, hcm⟩ := hmem
    exact ⟨c, hc, by simp [hcm, hm]⟩

set_option maxRecDepth 8192 in
/-- Every arm of the `switch` returns a descriptor with a non-zero opcode. -/
theorem encodeCases_opcode_ne_zero : ∀ c ∈ encodeCases, c.2.opcode ≠ 0 := by
  have h : encodeCases.all (fun c => decide (c.2.opcode ≠ 0)) = true := by rfl
  intro c hc
  have hc2 := List.all_eq_true.mp h c hc
  exact of_decide_eq_true hc2

/-- C1: the encoder reproduces the three fixtures: with pairwise distinct
mnemonic constants, `encode(AADD)` is `{0x33, 0x0, 0x0, 0, 0x0}`,
`encode(AAMOADDD)` is `{0x2f, 0x3, 0x0, 0, 0x0}` and `encode(AFCVTDL)` is
`{0x53, 0x0, 0x2, -734, 0x69}` (opcode, funct3, rs2, csr, funct7). -/
theorem encode_fixtures (A : Mnemonic → Int) (hA : Function.Injective A) :
    encode A (A AADD) = some (inst.mk 0x33 0x0 0x0 0 0x0) ∧
    encode A (A AAMOADDD) = some (inst.mk 0x2f 0x3 0x0 0 0x0) ∧
    encode A (A AFCVTDL) = some (inst.mk 0x53 0x0 0x2 (-734) 0x69) := by
  refine ⟨?_, ?_, ?_⟩ <;> rw [encode_of_injective A hA] <;> rfl

theorem encode_fixtures_witness :
    encode ordinal (ordinal AADD) = some (inst.mk 0x33 0x0 0x0 0 0x0) ∧
    encode ordinal (ordinal AAMOADDD) = some (inst.mk 0x2f 0x3 0x0 0 0x0) ∧
    encode ordinal (ordinal AFCVTDL) = some (inst.mk 0x53 0x0 0x2 (-734) 0x69) :=
  encode_fixtures ordinal ordinal_injective

/-- C2: `encode` has no misses and no zero-fill: for every valuation of the
mnemonic constants, each of the 212 mnemonics labelling a `case` gets a
descriptor, every value that is not such a constant gets nil, and no returned
descriptor is the all-zero record. -/
theorem encode_total (A : Mnemonic → Int) :
    encodeCases.length = 212 ∧
    (∀ m, ∃ d, encode A (A m) = some d) ∧
    (∀ a, (∀ m, A m ≠ a) → encode A a = none) ∧
    (∀ a d, encode A a = some d → d ≠ inst.mk 0 0 0 0 0) := by
  refine ⟨rfl, ?_, ?_, ?_⟩
  · intro m
    exact Option.isSome_iff_exists.mp ((encode_isSome_iff A (A m)).mpr ⟨m, rfl⟩)
  · intro a ha
    rw [← Option.not_isSome_iff_eq_none, encode_isSome_iff]
    rintro ⟨m, hm⟩
    exact ha m hm
  · intro a d h hd
    unfold encode at h
    rw [Option.map_eq_some'] at h
    obtain ⟨c, hc, hcd⟩ := h
    have hmem := List.mem_of_find?_eq_some hc
    have hop := encodeCases_opcode_ne_zero c hmem
    rw [hcd, hd] at hop
    exact hop rfl

theorem encode_total_witness :
    (∃ d, encode ordinal (ordinal AXORI) = some d) ∧ encode ordinal 212 = none :=
  ⟨(encode_total ordinal).2.1 AXORI,
   (encode_total ordinal).2.2.1 212 (fun m => ne_of_lt (ordinal_lt m))⟩

end riscv

/-! ## Theorems: package registry -/

namespace types

/-- C3: `NewPkg(path, name)` panics exactly when a package is registered under
`path`, `name` is non-empty and `name` differs from the registered `Name`; in
every other case it returns a package.  So after a returning
`NewPkg(path, a)` with non-empty `a`, `NewPkg(path, b)` with a different
non-empty `b` panics, and `NewPkg(path, "")` returns in every state. -/
theorem NewPkg_fails_iff (X : Extern) (σ : State) (path name : GoString) :
    ((∃ e, NewPkg X σ path name = .error e) ↔
      ∃ p, σ.pkgMap path = some p ∧ name ≠ [] ∧ (σ.pkgs p).Name ≠ name) ∧
    ((¬ ∃ p, σ.pkgMap path = some p ∧ name ≠ [] ∧ (σ.pkgs p).Name ≠ name) →
      ∃ r, NewPkg X σ path name = .ok r) ∧
    (∀ a b q σ1, a ≠ [] → b ≠ [] → a ≠ b → NewPkg X σ path a = .ok (q, σ1) →
      NewPkg X σ1 path b = .error (.conflictingPackageNames a b path)) ∧
    (∃ r, NewPkg X σ path [] = .ok r) := by
  refine ⟨?_, ?_, ?_, ?_⟩
  · unfold NewPkg
    cases hp : σ.pkgMap path with
    | none => simp
    | some p =>
      by_cases hc : name ≠ [] ∧ (σ.pkgs p).Name ≠ name
      · simp [hc]
      · simp only [hc, if_false]
        constructor
        · rintro ⟨e, he⟩
          cases he
        · rintro ⟨q, hq, h1, h2⟩
          cases hq
          exact absurd ⟨h1, h2⟩ hc
  · intro h
    unfold NewPkg
    cases hp : σ.pkgMap path with
    | none => exact ⟨_, rfl⟩
    | some p =>
      have hc : ¬ (name ≠ [] ∧ (σ.pkgs p).Name ≠ name) := fun hc => h ⟨p, hp, hc.1, hc.2⟩
      simp only [hc, if_false]
      exact ⟨_, rfl⟩
  · intro a b q σ1 ha hb hab h
    unfold NewPkg at h
    cases hp : σ.pkgMap path with
    | none =>
      simp only [hp] at h
      cases h
      simp [NewPkg, GoMap.set, hb, hab]
    | some p =>
      simp only [hp] at h
      by_cases hc : a ≠ [] ∧ (σ.pkgs p).Name ≠ a
      · simp [hc] at h
      · simp only [hc, if_false] at h
        cases h
        have hname : (σ.pkgs q).Name = a := by
          by_contra hne
          exact hc ⟨ha, hne⟩
        simp [NewPkg, hp, hb, hname, hab]
  · unfold NewPkg
    cases hp : σ.pkgMap path with
    | none => exact ⟨_, rfl⟩
    | some p => simp

theorem NewPkg_fails_iff_witness :
    ∃ q σ1, NewPkg Extern.plain State.init [112] [97] = .ok (q, σ1) ∧
      NewPkg Extern.plain σ1 [112] [98] = .error (.conflictingPackageNames [97] [98] [112]) :=
  ⟨_, _, rfl,
    (NewPkg_fails_iff Extern.plain State.init [112] [97]).2.2.1 [97] [98] _ _
      (by decide) (by decide) (by decide) rfl⟩

/-- C4: one `Pkg` per path.  On a path without entry `NewPkg(path, name)`
allocates a new `Pkg` with `Path = path`, `Name = name` and an empty symbol
map, stores it under `path` and changes no other registry entry or package;
on a registered path every returning `NewPkg(path, n)` returns the registered
instance and leaves the whole state unchanged; and after a returning
`NewPkg(path, name)` the calls with the same or the empty name return again
the same instance without changing the state. -/
theorem NewPkg_unique (X : Extern) (σ : State) (path name : GoString) :
    (σ.pkgMap path = none →
      ∃ σ1, NewPkg X σ path name = .ok (σ.nextPkg, σ1) ∧
        σ1.pkgMap path = some σ.nextPkg ∧
        (σ1.pkgs σ.nextPkg).Path = path ∧ (σ1.pkgs σ.nextPkg).Name = name ∧
        (∀ k, (σ1.pkgs σ.nextPkg).Syms k = none) ∧
        (∀ k, k ≠ path → σ1.pkgMap k = σ.pkgMap k) ∧
        (∀ q, q ≠ σ.nextPkg → σ1.pkgs q = σ.pkgs q)) ∧
    (∀ p, σ.pkgMap path = some p → ∀ n r, NewPkg X σ path n = .ok r → r = (p, σ)) ∧
    (∀ p σ1, NewPkg X σ path name = .ok (p, σ1) →
      σ1.pkgMap path = some p ∧
      ∀ n, n = name ∨ n = [] → NewPkg X σ1 path n = .ok (p, σ1)) := by
  refine ⟨?_, ?_, ?_⟩
  · intro hp
    refine ⟨_, by simp only [NewPkg, hp]; rfl, ?_, ?_, ?_, ?_, ?_, ?_⟩
    · simp [GoMap.set]
    · simp
    · simp
    · intro k
      simp [GoMap.empty]
    · intro k hk
      simp [GoMap.set, hk]
    · intro q hq
      simp [Function.update, hq]
  · intro p hp n r h
    unfold NewPkg at h
    simp only [hp] at h
    by_cases hc : n ≠ [] ∧ (σ.pkgs p).Name ≠ n
    · simp [hc] at h
    · simp only [hc, if_false] at h
      cases h
      rfl
  · intro p σ1 h
    unfold NewPkg at h
    cases hp : σ.pkgMap path with
    | none =>
      simp only [hp] at h
      cases h
      refine ⟨by simp [GoMap.set], ?_⟩
      intro n hn
      rcases hn with hn | hn <;> simp [NewPkg, GoMap.set, hn]
    | some q =>
      simp only [hp] at h
      by_cases hc : name ≠ [] ∧ (σ.pkgs q).Name ≠ name
      · simp [hc] at h
      · simp only [hc, if_false] at h
        cases h
        refine ⟨hp, ?_⟩
        intro n hn
        rcases hn with hn | hn
        · subst hn
          simp only [NewPkg, hp, hc, if_false]
        · simp [NewPkg, hp, hn]

theorem NewPkg_unique_witness :
    ∃ σ1, NewPkg Extern.plain State.init [112] [97] = .ok (1, σ1) ∧
      σ1.pkgMap [112] = some 1 ∧ (σ1.pkgs 1).Path = [112] ∧ (σ1.pkgs 1).Name = [97] ∧
      NewPkg Extern.plain σ1 [112] [] = .ok (1, σ1) := by
  obtain ⟨σ1, h1, h2, h3, h4, _⟩ :=
    (NewPkg_unique Extern.plain State.init [112] [97]).1 rfl
  exact ⟨σ1, h1, h2, h3, h4,
    ((NewPkg_unique Extern.plain State.init [112] [97]).2.2 1 σ1 h1).2 [] (Or.inr rfl)⟩

/-! ## Theorems: symbol table -/

theorem recv_of_nopkg (σ τ : State) (pkg : Ptr) (h : τ.nopkg = σ.nopkg) :
    τ.recv pkg = σ.recv pkg := by
  cases pkg <;> simp [State.recv, h]

theorem LookupOK_of_none (σ : State) (pkg : Ptr) (name : GoString)
    (h : (σ.pkgs (σ.recv pkg)).Syms name = none) :
    LookupOK σ pkg name = ((σ.nextSym, false),
      { σ with syms := Function.update σ.syms σ.nextSym
                 { Linkname := [], Pkg := some (σ.recv pkg), Name := name, Def := none,
                   flags := 0 },
               nextSym := σ.nextSym + 1,
               pkgs := Function.update σ.pkgs (σ.recv pkg)
                 { σ.pkgs (σ.recv pkg) with
                   Syms := (σ.pkgs (σ.recv pkg)).Syms.set name σ.nextSym } }) := by
  simp only [LookupOK, h]

theorem LookupOK_of_some (σ : State) (pkg : Ptr) (name : GoString) (s : Nat)
    (h : (σ.pkgs (σ.recv pkg)).Syms name = some s) :
    LookupOK σ pkg name = ((s, true), σ) := by
  simp only [LookupOK, h]

theorem LookupOK_nopkg (σ : State) (pkg : Ptr) (name : GoString) :
    (LookupOK σ pkg name).2.nopkg = σ.nopkg := by
  cases h : (σ.pkgs (σ.recv pkg)).Syms name with
  | none => rw [LookupOK_of_none σ pkg name h]
  | some s => rw [LookupOK_of_some σ pkg name s h]

/-- The `Sym` returned by `LookupOK` is the entry of the symbol map afterwards. -/
theorem LookupOK_stored (σ : State) (pkg : Ptr) (name : GoString) :
    ((LookupOK σ pkg name).2.pkgs (σ.recv pkg)).Syms name = some (LookupOK σ pkg name).1.1 := by
  cases h : (σ.pkgs (σ.recv pkg)).Syms name with
  | none =>
    rw [LookupOK_of_none σ pkg name h]
    simp [GoMap.set]
  | some s =>
    rw [LookupOK_of_some σ pkg name s h]
    exact h

/-- C5: identity stability of `LookupOK`.  When `name` has no entry in the
package, the first `LookupOK(name)` returns a `Sym` with `existed = false`
and the second returns the same `Sym` with `existed = true`; `Lookup(name)`
returns the `Sym` of `LookupOK(name)` and has the same effect. -/
theorem LookupOK_stable (σ : State) (pkg : Ptr) (name : GoString)
    (h : (σ.pkgs (σ.recv pkg)).Syms name = none) :
    ∃ s σ1, LookupOK σ pkg name = ((s, false), σ1) ∧
      LookupOK σ1 pkg name = ((s, true), σ1) ∧
      Lookup σ pkg name = (s, σ1) ∧ Lookup σ1 pkg name = (s, σ1) ∧
      (∀ τ q n, Lookup τ q n = ((LookupOK τ q n).1.1, (LookupOK τ q n).2)) := by
  have h1 := LookupOK_of_none σ pkg name h
  have h2 := LookupOK_stored σ pkg name
  have h3 := recv_of_nopkg σ (LookupOK σ pkg name).2 pkg (LookupOK_nopkg σ pkg name)
  rw [← h3] at h2
  have h4 := LookupOK_of_some _ pkg name _ h2
  rw [h1] at h4
  refine ⟨_, _, h1, h4, ?_, ?_, fun _ _ _ => rfl⟩
  · simp only [Lookup, h1]
  · simp only [Lookup, h4]

theorem LookupOK_stable_witness :
    ∃ s σ1, LookupOK State.init none [120] = ((s, false), σ1) ∧
      LookupOK σ1 none [120] = ((s, true), σ1) ∧
      Lookup State.init none [120] = (s, σ1) ∧ Lookup σ1 none [120] = (s, σ1) := by
  obtain ⟨s, σ1, h1, h2, h3, h4, _⟩ := LookupOK_stable State.init none [120] rfl
  exact ⟨s, σ1, h1, h2, h3, h4⟩

theorem LookupOK_SymInv (σ : State) (pkg : Ptr) (name : GoString) (hI : SymInv σ) :
    SymInv (LookupOK σ pkg name).2 := by
  cases h : (σ.pkgs (σ.recv pkg)).Syms name with
  | some s0 =>
    rw [LookupOK_of_some σ pkg name s0 h]
    exact hI
  | none =>
    rw [LookupOK_of_none σ pkg name h]
    intro p n s hs
    by_cases hp : p = σ.recv pkg
    · subst hp
      by_cases hn : n = name
      · subst hn
        have hs2 : s = σ.nextSym := by simpa [GoMap.set] using hs.symm
        subst hs2
        simp
      · have hs2 : (σ.pkgs (σ.recv pkg)).Syms n = some s := by simpa [GoMap.set, hn] using hs
        obtain ⟨h1, h2, h3⟩ := hI _ _ _ hs2
        have hne : s ≠ σ.nextSym := Nat.ne_of_lt h1
        refine ⟨Nat.lt_succ_of_lt h1, ?_, ?_⟩ <;> simp [Function.update, hne, h2, h3]
    · have hs2 : (σ.pkgs p).Syms n = some s := by simpa [Function.update, hp] using hs
      obtain ⟨h1, h2, h3⟩ := hI _ _ _ hs2
      have hne : s ≠ σ.nextSym := Nat.ne_of_lt h1
      refine ⟨Nat.lt_succ_of_lt h1, ?_, ?_⟩ <;> simp [Function.update, hne, h2, h3]

theorem LookupOK_kept (σ : State) (pkg : Ptr) (name : GoString) (hI : SymInv σ) :
    EntriesKept σ (LookupOK σ pkg name).2 := by
  cases h : (σ.pkgs (σ.recv pkg)).Syms name with
  | some s0 =>
    rw [LookupOK_of_some σ pkg name s0 h]
    intro p n s hs
    exact ⟨hs, rfl⟩
  | none =>
    rw [LookupOK_of_none σ pkg name h]
    intro p n s hs
    have hne : s ≠ σ.nextSym := Nat.ne_of_lt (hI _ _ _ hs).1
    refine ⟨?_, by simp [Function.update, hne]⟩
    by_cases hp : p = σ.recv pkg
    · subst hp
      have hn : n ≠ name := by
        rintro rfl
        rw [h] at hs
        cases hs
      simp [GoMap.set, hn, hs]
    · simp [Function.update, hp, hs]

theorem EntriesKept.refl (σ : State) : EntriesKept σ σ :=
  fun _ _ _ hs => ⟨hs, rfl⟩

/-- Variables other than `internedStrings` are left alone by `InternString`. -/
theorem InternString_frame (σ : State) (b : GoString) :
    (InternString σ b).2.pkgs = σ.pkgs ∧ (InternString σ b).2.syms = σ.syms ∧
    (InternString σ b).2.nextSym = σ.nextSym ∧ (InternString σ b).2.nopkg = σ.nopkg := by
  unfold InternString
  cases σ.internedStrings b <;> simp

theorem SymInv_congr (σ τ : State) (h1 : τ.pkgs = σ.pkgs) (h2 : τ.syms = σ.syms)
    (h3 : τ.nextSym = σ.nextSym) (hI : SymInv σ) : SymInv τ := by
  intro p n s hs
  rw [h1] at hs
  rw [h2, h3]
  exact hI p n s hs

theorem Lookup_SymInv (σ : State) (pkg : Ptr) (name : GoString) (hI : SymInv σ) :
    SymInv (Lookup σ pkg name).2 :=
  LookupOK_SymInv σ pkg name hI

theorem Lookup_kept (σ : State) (pkg : Ptr) (name : GoString) (hI : SymInv σ) :
    EntriesKept σ (Lookup σ pkg name).2 :=
  LookupOK_kept σ pkg name hI

theorem LookupBytes_of_some (σ : State) (pkg : Ptr) (name : GoString) (s : Nat)
    (h : (σ.pkgs (σ.recv pkg)).Syms name = some s) :
    LookupBytes σ pkg name = (s, σ) := by
  simp only [LookupBytes, h]

theorem LookupBytes_of_none (σ : State) (pkg : Ptr) (name : GoString)
    (h : (σ.pkgs (σ.recv pkg)).Syms name = none) :
    LookupBytes σ pkg name =
      Lookup (InternString σ name).2 (some (σ.recv pkg)) (InternString σ name).1 := by
  simp only [LookupBytes, h]

theorem LookupBytes_SymInv (σ : State) (pkg : Ptr) (name : GoString) (hI : SymInv σ) :
    SymInv (LookupBytes σ pkg name).2 := by
  cases h : (σ.pkgs (σ.recv pkg)).Syms name with
  | some s0 =>
    rw [LookupBytes_of_some σ pkg name s0 h]
    exact hI
  | none =>
    rw [LookupBytes_of_none σ pkg name h]
    obtain ⟨h1, h2, h3, _⟩ := InternString_frame σ name
    exact Lookup_SymInv _ _ _ (SymInv_congr σ _ h1 h2 h3 hI)

theorem LookupBytes_kept (σ : State) (pkg : Ptr) (name : GoString) (hI : SymInv σ) :
    EntriesKept σ (LookupBytes σ pkg name).2 := by
  cases h : (σ.pkgs (σ.recv pkg)).Syms name with
  | some s0 =>
    rw [LookupBytes_of_some σ pkg name s0 h]
    exact EntriesKept.refl σ
  | none =>
    rw [LookupBytes_of_none σ pkg name h]
    obtain ⟨h1, h2, h3, _⟩ := InternString_frame σ name
    have hk := Lookup_kept (InternString σ name).2 (some (σ.recv pkg)) (InternString σ name).1
      (SymInv_congr σ _ h1 h2 h3 hI)
    intro p n s hs
    have hs2 : (((InternString σ name).2).pkgs p).Syms n = some s := by rw [h1]; exact hs
    obtain ⟨k1, k2⟩ := hk p n s hs2
    exact ⟨k1, by rw [k2, h2]⟩

theorem LookupStep_SymInv (X : Extern) (σ σ1 : State) (hI : SymInv σ)
    (hstep : LookupStep X σ σ1) : SymInv σ1 ∧ EntriesKept σ σ1 := by
  cases hstep with
  | lookup pkg name => exact ⟨Lookup_SymInv σ pkg name hI, Lookup_kept σ pkg name hI⟩
  | lookupOK pkg name => exact ⟨LookupOK_SymInv σ pkg name hI, LookupOK_kept σ pkg name hI⟩
  | lookupBytes pkg name =>
    exact ⟨LookupBytes_SymInv σ pkg name hI, LookupBytes_kept σ pkg name hI⟩
  | lookupNum pkg pfx n r hr =>
    unfold LookupNum at hr
    by_cases hlen : pfx.length > 20
    · simp [hlen] at hr
    · simp only [hlen, if_false] at hr
      cases hr
      exact ⟨LookupBytes_SymInv σ pkg _ hI, LookupBytes_kept σ pkg _ hI⟩
  | selector pkg name r hr =>
    unfold Selector at hr
    cases he : IsExported X name with
    | error e => simp [he] at hr
    | ok b =>
      cases b <;> simp only [he] at hr <;> cases hr
      · exact ⟨Lookup_SymInv σ pkg name hI, Lookup_kept σ pkg name hI⟩
      · exact ⟨Lookup_SymInv σ σ.LocalPkg name hI, Lookup_kept σ σ.LocalPkg name hI⟩

theorem NewPkg_SymInv (X : Extern) (σ : State) (path name : GoString) (r : Nat × State)
    (hI : SymInv σ) (h : NewPkg X σ path name = .ok r) : SymInv r.2 := by
  unfold NewPkg at h
  cases hp : σ.pkgMap path with
  | some p =>
    simp only [hp] at h
    by_cases hc : name ≠ [] ∧ (σ.pkgs p).Name ≠ name
    · simp [hc] at h
    · simp only [hc, if_false] at h
      cases h
      exact hI
  | none =>
    simp only [hp] at h
    cases h
    intro p n s hs
    by_cases hq : p = σ.nextPkg
    · subst hq
      simp [GoMap.empty] at hs
    · have hs2 : (σ.pkgs p).Syms n = some s := by simpa [Function.update, hq] using hs
      exact hI p n s hs2

theorem SymInv_init : SymInv State.init := by
  intro p n s hs
  simp [State.init, Pkg.zero, GoMap.empty] at hs

theorem Reachable_SymInv (X : Extern) (σ : State) (h : Reachable X σ) : SymInv σ := by
  induction h with
  | init => exact SymInv_init
  | newPkg σ path name r _ hr ih => exact NewPkg_SymInv X σ path name r ih hr
  | setLocalPkg σ p _ ih => exact ih
  | internString σ b _ ih =>
    obtain ⟨h1, h2, h3, _⟩ := InternString_frame σ b
    exact SymInv_congr σ _ h1 h2 h3 ih
  | step σ σ1 _ hs ih => exact (LookupStep_SymInv X σ σ1 ih hs).1

/-- C6: symbol-table invariant.  In every reachable state each entry stored under
key `n` in the symbol map of a package is a `Sym` whose `Name` is `n` and whose
`Pkg` is that package, so two entries with the same `Sym` are the same entry;
the `Sym` returned by `Lookup` is the entry stored under the name in the
receiver (in `nopkg` for a nil receiver) and carries that name and package;
and a returning call of `Lookup`, `LookupOK`, `LookupBytes`, `LookupNum` or
`Selector` keeps every existing entry bound to the same, unchanged `Sym`. -/
theorem symtab_invariant (X : Extern) (σ : State) (h : Reachable X σ) :
    (∀ p n s, (σ.pkgs p).Syms n = some s →
      (σ.syms s).Name = n ∧ (σ.syms s).Pkg = some p) ∧
    (∀ p n q m s, (σ.pkgs p).Syms n = some s → (σ.pkgs q).Syms m = some s →
      p = q ∧ n = m) ∧
    (∀ pkg name,
      ((Lookup σ pkg name).2.pkgs (σ.recv pkg)).Syms name = some (Lookup σ pkg name).1 ∧
      ((Lookup σ pkg name).2.syms (Lookup σ pkg name).1).Name = name ∧
      ((Lookup σ pkg name).2.syms (Lookup σ pkg name).1).Pkg = some (σ.recv pkg)) ∧
    (∀ σ1, LookupStep X σ σ1 → ∀ p n s, (σ.pkgs p).Syms n = some s →
      (σ1.pkgs p).Syms n = some s ∧ σ1.syms s = σ.syms s) := by
  have hI := Reachable_SymInv X σ h
  refine ⟨?_, ?_, ?_, ?_⟩
  · intro p n s hs
    exact (hI p n s hs).2
  · intro p n q m s hp hq
    obtain ⟨_, h1, h2⟩ := hI p n s hp
    obtain ⟨_, h3, h4⟩ := hI q m s hq
    rw [h2] at h4
    rw [h1] at h3
    exact ⟨Option.some.inj h4, h3⟩
  · intro pkg name
    have hst : ((Lookup σ pkg name).2.pkgs (σ.recv pkg)).Syms name
        = some (Lookup σ pkg name).1 := LookupOK_stored σ pkg name
    exact ⟨hst, (Lookup_SymInv σ pkg name hI _ _ _ hst).2⟩
  · intro σ1 hstep
    exact (LookupStep_SymInv X σ σ1 hI hstep).2

theorem symtab_invariant_witness :
    ((Lookup State.init none [120]).2.syms 0).Name = [120] ∧
    ((Lookup State.init none [120]).2.syms 0).Pkg = some State.init.nopkg :=
  (symtab_invariant Extern.plain (Lookup State.init none [120]).2
    (Reachable.step _ _ Reachable.init (LookupStep.lookup none [120]))).1 0 [120] 0 rfl

/-! ## Theorems: string comparison -/

theorem stringLess_irrefl (x : GoString) : stringLess x x = false := by
  induction x with
  | nil => rfl
  | cons a as ih => simp [stringLess, ih]

theorem stringLess_trans : ∀ (x y z : GoString),
    stringLess x y = true → stringLess y z = true → stringLess x z = true
  | [], [], _, h, _ => by simp [stringLess] at h
  | [], _ :: _, [], _, h => by simp [stringLess] at h
  | [], _ :: _, _ :: _, _, _ => by simp [stringLess]
  | _ :: _, [], _, h, _ => by simp [stringLess] at h
  | _ :: _, _ :: _, [], _, h => by simp [stringLess] at h
  | a :: as, b :: bs, c :: cs, h1, h2 => by
    simp only [stringLess] at h1 h2 ⊢
    by_cases hab : a < b
    · by_cases hbc : b < c
      · simp [lt_trans hab hbc]
      · simp only [hbc, if_false] at h2
        by_cases hcb : c < b
        · simp [hcb] at h2
        · have hbceq : b = c := le_antisymm (not_lt.mp hcb) (not_lt.mp hbc)
          subst hbceq
          simp [hab]
    · simp only [hab, if_false] at h1
      by_cases hba : b < a
      · simp [hba] at h1
      · have habeq : a = b := le_antisymm (not_lt.mp hba) (not_lt.mp hab)
        subst habeq
        simp only [hba, if_false] at h1
        by_cases hac : a < c
        · simp [hac]
        · simp only [hac, if_false] at h2 ⊢
          by_cases hca : c < a
          · simp [hca] at h2
          · simp only [hca, if_false] at h2 ⊢
            exact stringLess_trans as bs cs h1 h2

theorem stringLess_asymm (x y : GoString) (h : stringLess x y = true) :
    stringLess y x = false := by
  cases hyx : stringLess y x with
  | false => rfl
  | true =>
    have hxx := stringLess_trans x y x h hyx
    rw [stringLess_irrefl] at hxx
    cases hxx

theorem stringLess_total : ∀ (x y : GoString), x ≠ y →
    stringLess x y = true ∨ stringLess y x = true
  | [], [], h => absurd rfl h
  | [], _ :: _, _ => Or.inl (by simp [stringLess])
  | _ :: _, [], _ => Or.inr (by simp [stringLess])
  | a :: as, b :: bs, h => by
    simp only [stringLess]
    by_cases hab : a < b
    · simp [hab]
    · by_cases hba : b < a
      · simp [hba]
      · have habeq : a = b := le_antisymm (not_lt.mp hba) (not_lt.mp hab)
        subst habeq
        simp only [hab, if_false]
        exact stringLess_total as bs (fun e => h (by rw [e]))

/-- The comparison `stringLess` is the lexicographic order on byte sequences. -/
theorem stringLess_iff_lex : ∀ (x y : GoString),
    stringLess x y = true ↔ List.Lex (· < ·) x y
  | [], [] => by simp [stringLess]
  | [], _ :: _ => by simp [stringLess, List.Lex.nil]
  | _ :: _, [] => by simp [stringLess]
  | a :: as, b :: bs => by
    simp only [stringLess]
    by_cases hab : a < b
    · simp only [hab, if_true, true_iff]
      exact List.Lex.rel hab
    · simp only [hab, if_false]
      by_cases hba : b < a
      · simp only [hba, if_true]
        constructor
        · intro h
          cases h
        · intro h
          cases h with
          | cons h2 => exact absurd hba (lt_irrefl _)
          | rel h2 => exact absurd h2 hab
      · have habeq : a = b := le_antisymm (not_lt.mp hba) (not_lt.mp hab)
        subst habeq
        simp only [hab, if_false]
        rw [stringLess_iff_lex as bs]
        constructor
        · intro h
          exact List.Lex.cons h
        · intro h
          cases h with
          | cons h2 => exact h2
          | rel h2 => exact absurd h2 hab

/-! ## Theorems: symbol ordering -/

theorem Less_self (X : Extern) (σ : State) (a : Ptr) : Less X σ a a = .ok false := by
  simp [Less]

theorem Less_nil_left (X : Extern) (σ : State) (pb : Nat) :
    Less X σ none (some pb) = .ok true := by
  simp [Less]

theorem Less_nil_right (X : Extern) (σ : State) (pa : Nat) :
    Less X σ (some pa) none = .ok false := by
  simp [Less]

/-- The body of `Less` after the pointer tests, for two distinct non-nil symbols
on whose names `IsExported` returns. -/
theorem Less_some_some (X : Extern) (σ : State) (pa pb : Nat) (ea eb : Bool)
    (hne : pa ≠ pb) (ha : IsExported X (σ.syms pa).Name = .ok ea)
    (hb : IsExported X (σ.syms pb).Name = .ok eb) :
    Less X σ (some pa) (some pb) =
      if ea ≠ eb then .ok ea
      else if (σ.syms pa).Name ≠ (σ.syms pb).Name then
        .ok (stringLess (σ.syms pa).Name (σ.syms pb).Name)
      else if ea = false then
        match (σ.syms pa).Pkg with
        | none => .error .nilDereference
        | some qa =>
          match (σ.syms pb).Pkg with
          | none => .error .nilDereference
          | some qb => .ok (stringLess (σ.pkgs qa).Path (σ.pkgs qb).Path)
      else .ok false := by
  have hne2 : (some pa : Ptr) ≠ some pb := fun e => hne (Option.some.inj e)
  simp only [Less, hne2, if_false, ha, hb]

theorem Less_error_left (X : Extern) (σ : State) (pa pb : Nat) (e : Fault)
    (hne : pa ≠ pb) (ha : IsExported X (σ.syms pa).Name = .error e) :
    Less X σ (some pa) (some pb) = .error e := by
  have hne2 : (some pa : Ptr) ≠ some pb := fun e => hne (Option.some.inj e)
  simp only [Less, hne2, if_false, ha]

theorem Less_error_right (X : Extern) (σ : State) (pa pb : Nat) (ea : Bool) (e : Fault)
    (hne : pa ≠ pb) (ha : IsExported X (σ.syms pa).Name = .ok ea)
    (hb : IsExported X (σ.syms pb).Name = .error e) :
    Less X σ (some pa) (some pb) = .error e := by
  have hne2 : (some pa : Ptr) ≠ some pb := fun e => hne (Option.some.inj e)
  simp only [Less, hne2, if_false, ha, hb]

theorem IsExported_ok_of_ne_nil (X : Extern) (name : GoString) (h : name ≠ []) :
    ∃ e, IsExported X name = .ok e := by
  cases name with
  | nil => exact absurd rfl h
  | cons r rs =>
    simp only [IsExported]
    split <;> exact ⟨_, rfl⟩

/-- What a `true` result of `Less` on two non-nil symbols says about them. -/
theorem Less_true_inv (X : Extern) (σ : State) (pa pb : Nat)
    (h : Less X σ (some pa) (some pb) = .ok true) :
    pa ≠ pb ∧ ∃ ea eb, IsExported X (σ.syms pa).Name = .ok ea ∧
      IsExported X (σ.syms pb).Name = .ok eb ∧
      ((ea = true ∧ eb = false) ∨
       (ea = eb ∧ (σ.syms pa).Name ≠ (σ.syms pb).Name ∧
          stringLess (σ.syms pa).Name (σ.syms pb).Name = true) ∨
       (ea = false ∧ eb = false ∧ (σ.syms pa).Name = (σ.syms pb).Name ∧
          ∃ qa qb, (σ.syms pa).Pkg = some qa ∧ (σ.syms pb).Pkg = some qb ∧
            stringLess (σ.pkgs qa).Path (σ.pkgs qb).Path = true)) := by
  have hne : pa ≠ pb := by
    rintro rfl
    rw [Less_self] at h
    cases h
  refine ⟨hne, ?_⟩
  cases ha : IsExported X (σ.syms pa).Name with
  | error e =>
    rw [Less_error_left X σ pa pb e hne ha] at h
    cases h
  | ok ea =>
    cases hb : IsExported X (σ.syms pb).Name with
    | error e =>
      rw [Less_error_right X σ pa pb ea e hne ha hb] at h
      cases h
    | ok eb =>
      rw [Less_some_some X σ pa pb ea eb hne ha hb] at h
      refine ⟨ea, eb, rfl, rfl, ?_⟩
      by_cases he : ea ≠ eb
      · rw [if_pos he] at h
        cases h
        cases eb
        · exact Or.inl ⟨rfl, rfl⟩
        · exact absurd rfl he
      · rw [if_neg he] at h
        have he2 : ea = eb := not_not.mp he
        by_cases hn : (σ.syms pa).Name ≠ (σ.syms pb).Name
        · rw [if_pos hn] at h
          exact Or.inr (Or.inl ⟨he2, hn, Except.ok.inj h⟩)
        · rw [if_neg hn] at h
          have hn2 := not_not.mp hn
          by_cases hf : ea = false
          · rw [if_pos hf] at h
            cases hqa : (σ.syms pa).Pkg with
            | none => simp [hqa] at h
            | some qa =>
              cases hqb : (σ.syms pb).Pkg with
              | none => simp [hqa, hqb] at h
              | some qb =>
                simp only [hqa, hqb] at h
                exact Or.inr (Or.inr ⟨hf, he2 ▸ hf, hn2, qa, qb, rfl, rfl, Except.ok.inj h⟩)
          · rw [if_neg hf] at h
            cases h

theorem Less_true_intro (X : Extern) (σ : State) (pa pb : Nat) (ea eb : Bool)
    (hne : pa ≠ pb) (ha : IsExported X (σ.syms pa).Name = .ok ea)
    (hb : IsExported X (σ.syms pb).Name = .ok eb)
    (hd : (ea = true ∧ eb = false) ∨
       (ea = eb ∧ (σ.syms pa).Name ≠ (σ.syms pb).Name ∧
          stringLess (σ.syms pa).Name (σ.syms pb).Name = true) ∨
       (ea = false ∧ eb = false ∧ (σ.syms pa).Name = (σ.syms pb).Name ∧
          ∃ qa qb, (σ.syms pa).Pkg = some qa ∧ (σ.syms pb).Pkg = some qb ∧
            stringLess (σ.pkgs qa).Path (σ.pkgs qb).Path = true)) :
    Less X σ (some pa) (some pb) = .ok true := by
  rw [Less_some_some X σ pa pb ea eb hne ha hb]
  rcases hd with ⟨h1, h2⟩ | ⟨h1, h2, h3⟩ | ⟨h1, h2, h3, qa, qb, h4, h5, h6⟩
  · subst h1 h2
    rfl
  · subst h1
    rw [if_neg (not_not.mpr rfl), if_pos h2, h3]
  · subst h1 h2
    rw [if_neg (not_not.mpr rfl), if_neg (not_not.mpr h3), if_pos rfl]
    simp only [h4, h5, h6]

/-- A `true` result of `Less` one way forces a `false` result the other way. -/
theorem Less_asymm (X : Extern) (σ : State) (a b : Ptr) (h : Less X σ a b = .ok true) :
    Less X σ b a = .ok false := by
  cases a with
  | none =>
    cases b with
    | none => exact Less_self X σ none
    | some pb => exact Less_nil_right X σ pb
  | some pa =>
    cases b with
    | none =>
      rw [Less_nil_right] at h
      cases h
    | some pb =>
      obtain ⟨hne, ea, eb, ha, hb, hd⟩ := Less_true_inv X σ pa pb h
      rw [Less_some_some X σ pb pa eb ea (Ne.symm hne) hb ha]
      rcases hd with ⟨h1, h2⟩ | ⟨h1, h2, h3⟩ | ⟨h1, h2, h3, qa, qb, h4, h5, h6⟩
      · subst h1 h2
        rfl
      · subst h1
        rw [if_neg (not_not.mpr rfl), if_pos (Ne.symm h2), stringLess_asymm _ _ h3]
      · subst h1 h2
        rw [if_neg (not_not.mpr rfl), if_neg (not_not.mpr h3.symm), if_pos rfl]
        simp only [h4, h5, stringLess_asymm _ _ h6]

theorem Less_trans (X : Extern) (σ : State) (a b c : Ptr)
    (hab : Less X σ a b = .ok true) (hbc : Less X σ b c = .ok true) :
    Less X σ a c = .ok true := by
  cases b with
  | none =>
    cases c with
    | none =>
      rw [Less_self] at hbc
      cases hbc
    | some pc =>
      cases a with
      | none =>
        rw [Less_self] at hab
        cases hab
      | some pa =>
        rw [Less_nil_right] at hab
        cases hab
  | some pb =>
    cases c with
    | none =>
      rw [Less_nil_right] at hbc
      cases hbc
    | some pc =>
      cases a with
      | none => exact Less_nil_left X σ pc
      | some pa =>
        obtain ⟨_, ea, eb, ha, hb, hd⟩ := Less_true_inv X σ pa pb hab
        obtain ⟨_, eb2, ec, hb2, hc, hd2⟩ := Less_true_inv X σ pb pc hbc
        rw [hb] at hb2
        have hbe : eb = eb2 := Except.ok.inj hb2
        subst hbe
        have key : ((ea = true ∧ ec = false) ∨
            (ea = ec ∧ (σ.syms pa).Name ≠ (σ.syms pc).Name ∧
              stringLess (σ.syms pa).Name (σ.syms pc).Name = true) ∨
            (ea = false ∧ ec = false ∧ (σ.syms pa).Name = (σ.syms pc).Name ∧
              ∃ qa qc, (σ.syms pa).Pkg = some qa ∧ (σ.syms pc).Pkg = some qc ∧
                stringLess (σ.pkgs qa).Path (σ.pkgs qc).Path = true)) := by
          have hlt_ne : ∀ x y : GoString, stringLess x y = true → x ≠ y := by
            rintro x y hxy rfl
            rw [stringLess_irrefl] at hxy
            cases hxy
          rcases hd with ⟨h1, h2⟩ | ⟨h1, h2, h3⟩ | ⟨h1, h2, h3, qa, qb, h4, h5, h6⟩
          · rcases hd2 with ⟨k1, k2⟩ | ⟨k1, k2, k3⟩ | ⟨k1, k2, k3, rb, rc, k4, k5, k6⟩
            · rw [h2] at k1
              cases k1
            · exact Or.inl ⟨h1, k1 ▸ h2⟩
            · exact Or.inl ⟨h1, k2⟩
          · rcases hd2 with ⟨k1, k2⟩ | ⟨k1, k2, k3⟩ | ⟨k1, k2, k3, rb, rc, k4, k5, k6⟩
            · exact Or.inl ⟨h1.trans k1, k2⟩
            · have ht := stringLess_trans _ _ _ h3 k3
              exact Or.inr (Or.inl ⟨h1.trans k1, hlt_ne _ _ ht, ht⟩)
            · rw [k3] at h2 h3
              exact Or.inr (Or.inl ⟨h1.trans (k1.trans k2.symm), h2, h3⟩)
          · rcases hd2 with ⟨k1, k2⟩ | ⟨k1, k2, k3⟩ | ⟨k1, k2, k3, rb, rc, k4, k5, k6⟩
            · rw [h2] at k1
              cases k1
            · rw [← h3] at k2 k3
              exact Or.inr (Or.inl ⟨h1.trans (h2.symm.trans k1), k2, k3⟩)
            · rw [h5] at k4
              have hq : qb = rb := Option.some.inj k4
              subst hq
              exact Or.inr (Or.inr ⟨h1, k2, h3.trans k3, qa, rc, h4, k5,
                stringLess_trans _ _ _ h6 k6⟩)
        have hne : pa ≠ pc := by
          rintro rfl
          rw [ha] at hc
          have hec : ea = ec := Except.ok.inj hc
          subst hec
          rcases key with ⟨k1, k2⟩ | ⟨_, k2, _⟩ | ⟨_, _, _, qa, qc, k4, k5, k6⟩
          · rw [k1] at k2
            cases k2
          · exact k2 rfl
          · rw [k4] at k5
            have hq : qa = qc := Option.some.inj k5
            subst hq
            rw [stringLess_irrefl] at k6
            cases k6
        exact Less_true_intro X σ pa pc ea ec hne ha hc key

/-- On comparable operands `Less` returns. -/
theorem Less_returns (X : Extern) (σ : State) (a b : Ptr)
    (ha : Comparable σ a) (hb : Comparable σ b) : ∃ r, Less X σ a b = .ok r := by
  by_cases hab : a = b
  · subst hab
    exact ⟨_, Less_self X σ a⟩
  · cases a with
    | none =>
      cases b with
      | none => exact absurd rfl hab
      | some pb => exact ⟨_, Less_nil_left X σ pb⟩
    | some pa =>
      cases b with
      | none => exact ⟨_, Less_nil_right X σ pa⟩
      | some pb =>
        have hne : pa ≠ pb := fun e => hab (by rw [e])
        obtain ⟨hna, hpa⟩ := ha pa rfl
        obtain ⟨hnb, hpb⟩ := hb pb rfl
        obtain ⟨ea, hea⟩ := IsExported_ok_of_ne_nil X _ hna
        obtain ⟨eb, heb⟩ := IsExported_ok_of_ne_nil X _ hnb
        rw [Less_some_some X σ pa pb ea eb hne hea heb]
        obtain ⟨qa, hqa⟩ := Option.ne_none_iff_exists'.mp hpa
        obtain ⟨qb, hqb⟩ := Option.ne_none_iff_exists'.mp hpb
        simp only [hqa, hqb]
        split_ifs <;> exact ⟨_, rfl⟩

/-- C7: `Less` is a strict partial order.  `a.Less(a)` is false for every `a`,
nil included; on nil and on symbols with a non-empty name and a non-nil
package `Less` returns; it is transitive (`a.Less(b)` and `b.Less(c)` give
`a.Less(c)`) and asymmetric (`a.Less(b)` makes `b.Less(a)` false). -/
theorem Less_strict_partial_order (X : Extern) (σ : State) :
    (∀ a, Less X σ a a = .ok false) ∧
    (∀ a b, Comparable σ a → Comparable σ b → ∃ r, Less X σ a b = .ok r) ∧
    (∀ a b c, Less X σ a b = .ok true → Less X σ b c = .ok true →
      Less X σ a c = .ok true) ∧
    (∀ a b, Less X σ a b = .ok true → Less X σ b a = .ok false) :=
  ⟨Less_self X σ, Less_returns X σ, Less_trans X σ, Less_asymm X σ⟩

theorem Less_strict_partial_order_witness :
    Less Extern.plain State.sample (some 0) (some 2) = .ok true ∧
    Less Extern.plain State.sample (some 2) (some 3) = .ok true ∧
    Less Extern.plain State.sample (some 0) (some 3) = .ok true ∧
    Less Extern.plain State.sample (some 3) (some 0) = .ok false :=
  ⟨rfl, rfl,
    (Less_strict_partial_order Extern.plain State.sample).2.2.1 (some 0) (some 2) (some 3)
      rfl rfl,
    (Less_strict_partial_order Extern.plain State.sample).2.2.2 (some 0) (some 3) rfl⟩

/-- C8, as stated, fails: the symbols `"F"` of two packages `"p"` and `"q"` are
distinct entries of the symbol table, and neither is `Less` than the other. -/
theorem Less_not_total :
    ∃ σ1 σ2 σ3 σ4,
      NewPkg Extern.plain State.init [112] [112] = .ok (1, σ1) ∧
      NewPkg Extern.plain σ1 [113] [113] = .ok (2, σ2) ∧
      Lookup σ2 (some 1) [70] = (0, σ3) ∧
      Lookup σ3 (some 2) [70] = (1, σ4) ∧
      IsExported Extern.plain [70] = .ok true ∧
      Less Extern.plain σ4 (some 0) (some 1) = .ok false ∧
      Less Extern.plain σ4 (some 1) (some 0) = .ok false :=
  ⟨_, _, _, _, rfl, rfl, rfl, rfl, rfl, rfl, rfl⟩

/-- C8, amended: for two distinct non-nil symbols with non-empty names and
non-nil packages, exactly one of `a.Less(b)` and `b.Less(a)` holds when their
names differ or their common name is unexported and their package paths
differ; neither holds when their names are equal and the name is exported or
the package paths are equal.  Nil is `Less` than every non-nil symbol and no
symbol is `Less` than nil. -/
theorem Less_total_on_keys (X : Extern) (σ : State) (pa pb qa qb : Nat) (hne : pa ≠ pb)
    (hna : (σ.syms pa).Name ≠ []) (hnb : (σ.syms pb).Name ≠ [])
    (hqa : (σ.syms pa).Pkg = some qa) (hqb : (σ.syms pb).Pkg = some qb) :
    (((σ.syms pa).Name ≠ (σ.syms pb).Name ∨
        (IsExported X (σ.syms pa).Name = .ok false ∧
          (σ.pkgs qa).Path ≠ (σ.pkgs qb).Path)) →
      (Less X σ (some pa) (some pb) = .ok true ∧
          Less X σ (some pb) (some pa) = .ok false) ∨
      (Less X σ (some pa) (some pb) = .ok false ∧
          Less X σ (some pb) (some pa) = .ok true)) ∧
    ((σ.syms pa).Name = (σ.syms pb).Name →
      (IsExported X (σ.syms pa).Name = .ok true ∨
        (σ.pkgs qa).Path = (σ.pkgs qb).Path) →
      Less X σ (some pa) (some pb) = .ok false ∧
        Less X σ (some pb) (some pa) = .ok false) ∧
    (Less X σ none (some pa) = .ok true ∧ Less X σ (some pa) none = .ok false) := by
  obtain ⟨ea, hea⟩ := IsExported_ok_of_ne_nil X _ hna
  obtain ⟨eb, heb⟩ := IsExported_ok_of_ne_nil X _ hnb
  have hab := Less_some_some X σ pa pb ea eb hne hea heb
  have hba := Less_some_some X σ pb pa eb ea (Ne.symm hne) heb hea
  refine ⟨?_, ?_, Less_nil_left X σ pa, Less_nil_right X σ pa⟩
  · intro hk
    by_cases he : ea ≠ eb
    · rw [if_pos he] at hab
      rw [if_pos (Ne.symm he)] at hba
      rw [hab, hba]
      cases ea <;> cases eb <;> simp at he ⊢
    · have he2 : ea = eb := not_not.mp he
      subst he2
      rw [if_neg he] at hab hba
      by_cases hn : (σ.syms pa).Name ≠ (σ.syms pb).Name
      · rw [if_pos hn] at hab
        rw [if_pos (Ne.symm hn)] at hba
        rw [hab, hba]
        rcases stringLess_total _ _ hn with h | h
        · rw [h, stringLess_asymm _ _ h]
          exact Or.inl ⟨rfl, rfl⟩
        · rw [h, stringLess_asymm _ _ h]
          exact Or.inr ⟨rfl, rfl⟩
      · have hn2 := not_not.mp hn
        rcases hk with hk | ⟨hk1, hk2⟩
        · exact absurd hn2 hk
        · rw [hea] at hk1
          have hf : ea = false := Except.ok.inj hk1
          subst hf
          rw [if_neg hn, if_pos rfl] at hab
          rw [if_neg (not_not.mpr hn2.symm), if_pos rfl] at hba
          simp only [hqa, hqb] at hab hba
          rw [hab, hba]
          rcases stringLess_total _ _ hk2 with h | h
          · rw [h, stringLess_asymm _ _ h]
            exact Or.inl ⟨rfl, rfl⟩
          · rw [h, stringLess_asymm _ _ h]
            exact Or.inr ⟨rfl, rfl⟩
  · intro hn hk
    rw [← hn, hea] at heb
    have he2 : ea = eb := Except.ok.inj heb
    subst he2
    rw [if_neg (not_not.mpr rfl), if_neg (not_not.mpr hn)] at hab
    rw [if_neg (not_not.mpr rfl), if_neg (not_not.mpr hn.symm)] at hba
    cases ea with
    | true =>
      rw [if_neg (by decide)] at hab hba
      exact ⟨hab, hba⟩
    | false =>
      rcases hk with hk | hk
      · rw [hea] at hk
        cases hk
      · rw [if_pos rfl] at hab hba
        simp only [hqa, hqb] at hab hba
        rw [hab, hba, hk, stringLess_irrefl]
        exact ⟨rfl, rfl⟩

theorem Less_total_on_keys_witness :
    (Less Extern.plain State.sample (some 2) (some 3) = .ok true ∧
        Less Extern.plain State.sample (some 3) (some 2) = .ok false) ∨
      (Less Extern.plain State.sample (some 2) (some 3) = .ok false ∧
        Less Extern.plain State.sample (some 3) (some 2) = .ok true) :=
  (Less_total_on_keys Extern.plain State.sample 2 3 1 2 (by decide) (by decide) (by decide)
    rfl rfl).1 (Or.inr ⟨rfl, by decide⟩)

/-- C9: exported before unexported.  For non-nil symbols `a` with an exported
name and `b` with an unexported name, `a.Less(b)` is true and `b.Less(a)` is
false, whatever the names and packages; so in a list sorted by `Less` every
symbol with an exported name stands before every symbol with an unexported
name. -/
theorem Less_exported_first (X : Extern) (σ : State) :
    (∀ pa pb, IsExported X (σ.syms pa).Name = .ok true →
      IsExported X (σ.syms pb).Name = .ok false →
      Less X σ (some pa) (some pb) = .ok true ∧
        Less X σ (some pb) (some pa) = .ok false) ∧
    (∀ (l : List Ptr) (i j pa pb : Nat), SortedByLess X σ l →
      l.get? i = some (some pa) → l.get? j = some (some pb) →
      IsExported X (σ.syms pa).Name = .ok true →
      IsExported X (σ.syms pb).Name = .ok false → i < j) := by
  have first : ∀ pa pb, IsExported X (σ.syms pa).Name = .ok true →
      IsExported X (σ.syms pb).Name = .ok false →
      Less X σ (some pa) (some pb) = .ok true ∧
        Less X σ (some pb) (some pa) = .ok false := by
    intro pa pb ha hb
    have hne : pa ≠ pb := by
      rintro rfl
      rw [ha] at hb
      cases hb
    have hab := Less_true_intro X σ pa pb true false hne ha hb (Or.inl ⟨rfl, rfl⟩)
    exact ⟨hab, Less_asymm X σ _ _ hab⟩
  refine ⟨first, ?_⟩
  intro l i j pa pb hs hi hj ha hb
  by_contra hij
  have hji : j ≤ i := not_lt.mp hij
  have hne : j ≠ i := by
    rintro rfl
    rw [hi] at hj
    have hp : pa = pb := Option.some.inj (Option.some.inj hj)
    subst hp
    rw [ha] at hb
    cases hb
  have hlt : j < i := lt_of_le_of_ne hji hne
  obtain ⟨hil, hie⟩ := List.get?_eq_some.mp hi
  obtain ⟨hjl, hje⟩ := List.get?_eq_some.mp hj
  have hp := List.pairwise_iff_getElem.mp hs j i hjl hil hlt
  simp only [List.get_eq_getElem] at hie hje
  rw [hie, hje] at hp
  exact hp (first pa pb ha hb).1

theorem Less_exported_first_witness :
    Less Extern.plain State.sample (some 1) (some 2) = .ok true ∧
      Less Extern.plain State.sample (some 2) (some 1) = .ok false :=
  (Less_exported_first Extern.plain State.sample).1 1 2 rfl rfl

/-- C10: `Less` is the documented comparison.  Nil is before every non-nil
symbol; for distinct non-nil symbols of equal export status with different
names, `a.Less(b)` holds exactly when `a.Name` is before `b.Name` in the
lexicographic order on bytes; for equal unexported names it holds exactly
when `a.Pkg.Path` is before `b.Pkg.Path`; for equal exported names the
packages are not read and neither symbol is `Less` than the other. -/
theorem Less_reference (X : Extern) (σ : State) :
    (∀ pb, Less X σ none (some pb) = .ok true ∧ Less X σ (some pb) none = .ok false) ∧
    (∀ pa pb e, pa ≠ pb → IsExported X (σ.syms pa).Name = .ok e →
      IsExported X (σ.syms pb).Name = .ok e → (σ.syms pa).Name ≠ (σ.syms pb).Name →
      ∃ r, Less X σ (some pa) (some pb) = .ok r ∧
        (r = true ↔ List.Lex (· < ·) (σ.syms pa).Name (σ.syms pb).Name)) ∧
    (∀ pa pb qa qb, pa ≠ pb → (σ.syms pa).Name = (σ.syms pb).Name →
      IsExported X (σ.syms pa).Name = .ok false →
      (σ.syms pa).Pkg = some qa → (σ.syms pb).Pkg = some qb →
      ∃ r, Less X σ (some pa) (some pb) = .ok r ∧
        (r = true ↔ List.Lex (· < ·) (σ.pkgs qa).Path (σ.pkgs qb).Path)) ∧
    (∀ pa pb, pa ≠ pb → (σ.syms pa).Name = (σ.syms pb).Name →
      IsExported X (σ.syms pa).Name = .ok true →
      Less X σ (some pa) (some pb) = .ok false ∧
        Less X σ (some pb) (some pa) = .ok false) := by
  refine ⟨fun pb => ⟨Less_nil_left X σ pb, Less_nil_right X σ pb⟩, ?_, ?_, ?_⟩
  · intro pa pb e hne ha hb hn
    refine ⟨stringLess (σ.syms pa).Name (σ.syms pb).Name, ?_, stringLess_iff_lex _ _⟩
    rw [Less_some_some X σ pa pb e e hne ha hb, if_neg (not_not.mpr rfl), if_pos hn]
  · intro pa pb qa qb hne hn ha hqa hqb
    have hb : IsExported X (σ.syms pb).Name = .ok false := by rw [← hn]; exact ha
    refine ⟨stringLess (σ.pkgs qa).Path (σ.pkgs qb).Path, ?_, stringLess_iff_lex _ _⟩
    rw [Less_some_some X σ pa pb false false hne ha hb, if_neg (not_not.mpr rfl),
      if_neg (not_not.mpr hn), if_pos rfl]
    simp only [hqa, hqb]
  · intro pa pb hne hn ha
    have hb : IsExported X (σ.syms pb).Name = .ok true := by rw [← hn]; exact ha
    constructor
    · rw [Less_some_some X σ pa pb true true hne ha hb, if_neg (not_not.mpr rfl),
        if_neg (not_not.mpr hn), if_neg (by decide)]
    · rw [Less_some_some X σ pb pa true true (Ne.symm hne) hb ha, if_neg (not_not.mpr rfl),
        if_neg (not_not.mpr hn.symm), if_neg (by decide)]

theorem Less_reference_witness :
    ∃ r, Less Extern.plain State.sample (some 2) (some 3) = .ok r ∧
      (r = true ↔ List.Lex (· < ·) [112] [113]) :=
  (Less_reference Extern.plain State.sample).2.2.1 2 3 1 2 (by decide) rfl rfl rfl rfl

/-! ## Theorems: intern pool -/

theorem InternString_of_some (σ : State) (b s : GoString)
    (h : σ.internedStrings b = some s) : InternString σ b = (s, σ) := by
  simp only [InternString, h]

theorem InternString_of_none (σ : State) (b : GoString)
    (h : σ.internedStrings b = none) :
    InternString σ b = (b, { σ with internedStrings := σ.internedStrings.set b b }) := by
  simp only [InternString, h]

theorem InternString_fst (σ : State) (b : GoString) (hI : InternInv σ) :
    (InternString σ b).1 = b := by
  cases h : σ.internedStrings b with
  | none => rw [InternString_of_none σ b h]
  | some s =>
    rw [InternString_of_some σ b s h]
    exact hI b s h

theorem InternString_InternInv (σ : State) (b : GoString) (hI : InternInv σ) :
    InternInv (InternString σ b).2 := by
  cases h : σ.internedStrings b with
  | none =>
    rw [InternString_of_none σ b h]
    intro k v hk
    by_cases hkb : k = b
    · subst hkb
      simpa [GoMap.set] using hk.symm
    · exact hI k v (by simpa [GoMap.set, hkb] using hk)
  | some s =>
    rw [InternString_of_some σ b s h]
    exact hI

theorem LookupOK_pool (σ : State) (pkg : Ptr) (name : GoString) :
    (LookupOK σ pkg name).2.internedStrings = σ.internedStrings := by
  cases h : (σ.pkgs (σ.recv pkg)).Syms name with
  | none => rw [LookupOK_of_none σ pkg name h]
  | some s => rw [LookupOK_of_some σ pkg name s h]

theorem LookupOK_InternInv (σ : State) (pkg : Ptr) (name : GoString) (hI : InternInv σ) :
    InternInv (LookupOK σ pkg name).2 := by
  intro k v hk
  rw [LookupOK_pool] at hk
  exact hI k v hk

theorem LookupBytes_InternInv (σ : State) (pkg : Ptr) (name : GoString) (hI : InternInv σ) :
    InternInv (LookupBytes σ pkg name).2 := by
  cases h : (σ.pkgs (σ.recv pkg)).Syms name with
  | some s0 =>
    rw [LookupBytes_of_some σ pkg name s0 h]
    exact hI
  | none =>
    rw [LookupBytes_of_none σ pkg name h]
    exact LookupOK_InternInv _ _ _ (InternString_InternInv σ name hI)

theorem LookupStep_InternInv (X : Extern) (σ σ1 : State) (hI : InternInv σ)
    (hstep : LookupStep X σ σ1) : InternInv σ1 := by
  cases hstep with
  | lookup pkg name => exact LookupOK_InternInv σ pkg name hI
  | lookupOK pkg name => exact LookupOK_InternInv σ pkg name hI
  | lookupBytes pkg name => exact LookupBytes_InternInv σ pkg name hI
  | lookupNum pkg pfx n r hr =>
    unfold LookupNum at hr
    by_cases hlen : pfx.length > 20
    · simp [hlen] at hr
    · simp only [hlen, if_false] at hr
      cases hr
      exact LookupBytes_InternInv σ pkg _ hI
  | selector pkg name r hr =>
    unfold Selector at hr
    cases he : IsExported X name with
    | error e => simp [he] at hr
    | ok b =>
      cases b <;> simp only [he] at hr <;> cases hr
      · exact LookupOK_InternInv σ pkg name hI
      · exact LookupOK_InternInv σ σ.LocalPkg name hI

theorem NewPkg_pool (X : Extern) (σ : State) (path name : GoString) (r : Nat × State)
    (h : NewPkg X σ path name = .ok r) : r.2.internedStrings = σ.internedStrings := by
  unfold NewPkg at h
  cases hp : σ.pkgMap path with
  | some p =>
    simp only [hp] at h
    by_cases hc : name ≠ [] ∧ (σ.pkgs p).Name ≠ name
    · simp [hc] at h
    · simp only [hc, if_false] at h
      cases h
      rfl
  | none =>
    simp only [hp] at h
    cases h
    rfl

theorem Reachable_InternInv (X : Extern) (σ : State) (h : Reachable X σ) : InternInv σ := by
  induction h with
  | init =>
    intro k v hk
    simp [State.init, GoMap.empty] at hk
  | newPkg σ path name r _ hr ih =>
    intro k v hk
    rw [NewPkg_pool X σ path name r hr] at hk
    exact ih k v hk
  | setLocalPkg σ p _ ih => exact ih
  | internString σ b _ ih => exact InternString_InternInv σ b ih
  | step σ σ1 _ hs ih => exact LookupStep_InternInv X σ σ1 ih hs

/-- C20: `InternString` canonicalizes content.  In every reachable state each
pool key maps to a string with the bytes of the key; `InternString(b)`
returns a string with the bytes of `b`, afterwards the pool maps `b` to
itself, every other pool entry and every other variable is unchanged, and a
second call with the same content returns the same string and changes
nothing. -/
theorem InternString_canonical (X : Extern) (σ : State) (h : Reachable X σ) (b : GoString) :
    InternInv σ ∧
    (InternString σ b).1 = b ∧
    (InternString σ b).2.internedStrings b = some b ∧
    (∀ k, k ≠ b → (InternString σ b).2.internedStrings k = σ.internedStrings k) ∧
    (InternString σ b).2 =
      { σ with internedStrings := (InternString σ b).2.internedStrings } ∧
    InternString (InternString σ b).2 b = (b, (InternString σ b).2) ∧
    InternInv (InternString σ b).2 := by
  have hI := Reachable_InternInv X σ h
  have hb : (InternString σ b).2.internedStrings b = some b := by
    cases hs : σ.internedStrings b with
    | none =>
      rw [InternString_of_none σ b hs]
      simp [GoMap.set]
    | some s =>
      rw [InternString_of_some σ b s hs, hs, hI b s hs]
  refine ⟨hI, InternString_fst σ b hI, hb, ?_, ?_, InternString_of_some _ b b hb,
    InternString_InternInv σ b hI⟩
  · intro k hk
    cases hs : σ.internedStrings b with
    | none =>
      rw [InternString_of_none σ b hs]
      simp [GoMap.set, hk]
    | some s => rw [InternString_of_some σ b s hs]
  · cases hs : σ.internedStrings b with
    | none => rw [InternString_of_none σ b hs]
    | some s => rw [InternString_of_some σ b s hs]

theorem InternString_canonical_witness :
    (InternString State.init [97, 98]).1 = [97, 98] ∧
    (InternString State.init [97, 98]).2.internedStrings [97, 98] = some [97, 98] ∧
    InternString (InternString State.init [97, 98]).2 [97, 98]
      = ([97, 98], (InternString State.init [97, 98]).2) :=
  ⟨(InternString_canonical Extern.plain State.init Reachable.init [97, 98]).2.1,
   (InternString_canonical Extern.plain State.init Reachable.init [97, 98]).2.2.1,
   (InternString_canonical Extern.plain State.init Reachable.init [97, 98]).2.2.2.2.2.1⟩

/-! ## Theorems: selector, numbered and byte lookups, linkage -/

theorem LookupOK_LocalPkg (σ : State) (pkg : Ptr) (name : GoString) :
    (LookupOK σ pkg name).2.LocalPkg = σ.LocalPkg := by
  cases h : (σ.pkgs (σ.recv pkg)).Syms name with
  | none => rw [LookupOK_of_none σ pkg name h]
  | some s => rw [LookupOK_of_some σ pkg name s h]

/-- A repeated `Lookup` returns the `Sym` of the first one and changes nothing. -/
theorem Lookup_again (σ : State) (pkg : Ptr) (name : GoString) :
    Lookup (Lookup σ pkg name).2 pkg name = Lookup σ pkg name := by
  have h2 := LookupOK_stored σ pkg name
  have h3 := recv_of_nopkg σ (LookupOK σ pkg name).2 pkg (LookupOK_nopkg σ pkg name)
  rw [← h3] at h2
  have h4 := LookupOK_of_some _ pkg name _ h2
  show ((LookupOK (LookupOK σ pkg name).2 pkg name).1.1,
      (LookupOK (LookupOK σ pkg name).2 pkg name).2) = _
  rw [h4]
  rfl

/-- C11: `Selector` redirects exported names to the local package.  For an
exported name, `p.Selector(name)` is `LocalPkg.Lookup(name)` whatever the
receiver `p`, and a following `q.Selector(name)` returns the same `Sym`
without changing the state; for an unexported name `p.Selector(name)` is
`p.Lookup(name)`, whose `Sym` has `Pkg = p` (`nopkg` for a nil `p`). -/
theorem Selector_redirect (X : Extern) (σ : State) (name : GoString) :
    (IsExported X name = .ok true →
      (∀ p, Selector X σ p name = .ok (Lookup σ σ.LocalPkg name)) ∧
      (∀ p q, ∃ s σ1, Selector X σ p name = .ok (s, σ1) ∧
        Selector X σ1 q name = .ok (s, σ1))) ∧
    (IsExported X name = .ok false →
      ∀ p, Selector X σ p name = .ok (Lookup σ p name) ∧
        (SymInv σ →
          ((Lookup σ p name).2.syms (Lookup σ p name).1).Pkg = some (σ.recv p))) := by
  constructor
  · intro he
    have h1 : ∀ (τ : State) (p : Ptr), Selector X τ p name = .ok (Lookup τ τ.LocalPkg name) := by
      intro τ p
      simp only [Selector, he]
    refine ⟨h1 σ, ?_⟩
    intro p q
    refine ⟨(Lookup σ σ.LocalPkg name).1, (Lookup σ σ.LocalPkg name).2, h1 σ p, ?_⟩
    rw [h1 _ q]
    have hL : (Lookup σ σ.LocalPkg name).2.LocalPkg = σ.LocalPkg :=
      LookupOK_LocalPkg σ σ.LocalPkg name
    rw [hL, Lookup_again]
  · intro he p
    refine ⟨by simp only [Selector, he], ?_⟩
    intro hI
    have hst : ((Lookup σ p name).2.pkgs (σ.recv p)).Syms name
        = some (Lookup σ p name).1 := LookupOK_stored σ p name
    exact (Lookup_SymInv σ p name hI _ _ _ hst).2.2

theorem Selector_redirect_witness :
    (∃ s σ1, Selector Extern.plain State.sample (some 1) [70] = .ok (s, σ1) ∧
      Selector Extern.plain σ1 (some 2) [70] = .ok (s, σ1)) ∧
    Selector Extern.plain State.sample (some 1) [120]
      = .ok (Lookup State.sample (some 1) [120]) :=
  ⟨((Selector_redirect Extern.plain State.sample [70]).1 rfl).2 (some 1) (some 2),
   ((Selector_redirect Extern.plain State.sample [120]).2 rfl (some 1)).1⟩

theorem copy_take (pfx : GoString) (h : pfx.length ≤ 20) :
    (copy (List.replicate 20 0) pfx).take pfx.length = pfx := by
  unfold copy
  have h1 : pfx.take (List.replicate 20 0).length = pfx := by
    rw [List.length_replicate]
    exact List.take_of_length_le h
  rw [h1, List.take_left']
  rfl

theorem LookupNum_of_le (σ : State) (pkg : Ptr) (pfx : GoString) (n : Int)
    (h : pfx.length ≤ 20) :
    LookupNum σ pkg pfx n = .ok (LookupBytes σ pkg (AppendInt pfx n)) := by
  have hn : ¬ pfx.length > 20 := not_lt.mpr h
  simp only [LookupNum, hn, if_false, copy_take pfx h]

theorem LookupNum_of_gt (σ : State) (pkg : Ptr) (pfx : GoString) (n : Int)
    (h : pfx.length > 20) :
    LookupNum σ pkg pfx n = .error .sliceBoundsOutOfRange := by
  simp only [LookupNum, h, if_true]

/-- C14: `LookupBytes(b)` is `Lookup(string(b))`.  When every pool key maps to
itself, `pkg.LookupBytes(b)` returns the `Sym` of `pkg.Lookup(b)` and leaves
every variable but the intern pool as `pkg.Lookup(b)` leaves it; when the
symbol already exists the whole state, intern pool included, is unchanged. -/
theorem LookupBytes_eq_Lookup (σ : State) (pkg : Ptr) (b : GoString) (hI : InternInv σ) :
    (LookupBytes σ pkg b).1 = (Lookup σ pkg b).1 ∧
    (LookupBytes σ pkg b).2 =
      { (Lookup σ pkg b).2 with internedStrings := (LookupBytes σ pkg b).2.internedStrings } ∧
    (∀ s, (σ.pkgs (σ.recv pkg)).Syms b = some s → LookupBytes σ pkg b = (s, σ)) := by
  cases h : (σ.pkgs (σ.recv pkg)).Syms b with
  | some s0 =>
    rw [LookupBytes_of_some σ pkg b s0 h]
    have hL : Lookup σ pkg b = (s0, σ) := by
      simp only [Lookup, LookupOK_of_some σ pkg b s0 h]
    rw [hL]
    exact ⟨rfl, rfl, fun s hs => by cases hs; rfl⟩
  | none =>
    rw [LookupBytes_of_none σ pkg b h]
    have hfst := InternString_fst σ b hI
    rw [hfst]
    obtain ⟨h1, h2, h3, h4⟩ := InternString_frame σ b
    have hr : ((InternString σ b).2).recv (some (σ.recv pkg)) = σ.recv pkg := rfl
    have hnone : (((InternString σ b).2).pkgs
        (((InternString σ b).2).recv (some (σ.recv pkg)))).Syms b = none := by
      rw [hr, h1]
      exact h
    have hA := LookupOK_of_none (InternString σ b).2 (some (σ.recv pkg)) b hnone
    have hB := LookupOK_of_none σ pkg b h
    simp only [Lookup, hA, hB, hr, h1, h2, h3]
    refine ⟨trivial, ?_, fun s hs => by cases hs⟩
    cases hs : σ.internedStrings b with
    | none => rw [InternString_of_none σ b hs]
    | some s => rw [InternString_of_some σ b s hs]

theorem InternInv_sample : InternInv State.sample :=
  fun _ v hk => Option.noConfusion (show (none : Option GoString) = some v from hk)

theorem LookupBytes_eq_Lookup_witness :
    (LookupBytes State.sample (some 1) [121]).1 = (Lookup State.sample (some 1) [121]).1 ∧
    LookupBytes State.sample (some 1) [120] = (2, State.sample) :=
  ⟨(LookupBytes_eq_Lookup State.sample (some 1) [121] InternInv_sample).1,
   (LookupBytes_eq_Lookup State.sample (some 1) [120] InternInv_sample).2.2 2 rfl⟩

theorem digitChar_toNat (k : Nat) (h : k < 10) : (Nat.digitChar k).toNat = 48 + k := by
  interval_cases k <;> rfl

theorem toDigitsCore_spec : ∀ (fuel n : Nat) (ds : List Char), n < fuel →
    ∃ X : List Char, Nat.toDigitsCore 10 fuel n ds = X ++ ds ∧
      decimalValue (X.map Char.toNat) = n ∧
      ∀ c ∈ X, 48 ≤ c.toNat ∧ c.toNat ≤ 57
  | 0, _, _, h => absurd h (Nat.not_lt_zero _)
  | fuel + 1, n, ds, h => by
    have hd : n % 10 < 10 := Nat.mod_lt _ (by decide)
    have hc := digitChar_toNat (n % 10) hd
    by_cases h0 : n / 10 = 0
    · refine ⟨[Nat.digitChar (n % 10)], by simp [Nat.toDigitsCore, h0], ?_, ?_⟩
      · have hn : n % 10 = n := Nat.mod_eq_of_lt (by omega)
        simp only [decimalValue, List.map, List.foldl, hc]
        show 10 * 0 + (48 + n % 10 - 48) = n
        omega
      · intro c hcm
        rw [List.mem_singleton] at hcm
        subst hcm
        omega
    · have hlt : n / 10 < fuel := by omega
      obtain ⟨X, hX, hv, hr⟩ := toDigitsCore_spec fuel (n / 10) (Nat.digitChar (n % 10) :: ds) hlt
      refine ⟨X ++ [Nat.digitChar (n % 10)], ?_, ?_, ?_⟩
      · simp [Nat.toDigitsCore, h0, hX]
      · unfold decimalValue at hv ⊢
        rw [List.map_append, List.foldl_append, hv]
        simp only [List.map, List.foldl, hc]
        show 10 * (n / 10) + (48 + n % 10 - 48) = n
        omega
      · intro c hcm
        rw [List.mem_append, List.mem_singleton] at hcm
        rcases hcm with hcm | hcm
        · exact hr c hcm
        · subst hcm
          omega

/-- The bytes of `decimal n` are ASCII digits whose decimal value is `n`. -/
theorem decimal_spec (n : Nat) :
    decimalValue (decimal n) = n ∧ ∀ d ∈ decimal n, '0'.toNat ≤ d ∧ d ≤ '9'.toNat := by
  obtain ⟨X, hX, hv, hr⟩ := toDigitsCore_spec (n + 1) n [] (Nat.lt_succ_self n)
  have hdec : decimal n = X.map Char.toNat := by
    simp [decimal, Nat.toDigits, hX]
  rw [hdec]
  refine ⟨hv, ?_⟩
  intro d hdm
  rw [List.mem_map] at hdm
  obtain ⟨c, hcX, hcd⟩ := hdm
  subst hcd
  exact hr c hcX

theorem AppendInt_append (dst : GoString) (i : Int) :
    AppendInt dst i = dst ++ AppendInt [] i := by
  unfold AppendInt
  split <;> simp

/-- C12: `LookupNum` looks up `prefix` followed by the decimal text of `n`.  For
a prefix of at most 20 bytes and every integer `n`, `pkg.LookupNum(prefix, n)`
returns the `Sym` of `pkg.Lookup(prefix ++ text)` and leaves the symbol table
as that call leaves it, where `text` is the decimal digits of `n`, after a
`-` when `n` is negative; no byte of `prefix` or `text` is dropped, whatever
their total length. -/
theorem LookupNum_name (σ : State) (pkg : Ptr) (pfx : GoString) (n : Int)
    (hI : InternInv σ) (hlen : pfx.length ≤ 20) :
    (∃ σ1, LookupNum σ pkg pfx n = .ok ((Lookup σ pkg (pfx ++ AppendInt [] n)).1, σ1) ∧
      σ1 = { (Lookup σ pkg (pfx ++ AppendInt [] n)).2 with
             internedStrings := σ1.internedStrings }) ∧
    (0 ≤ n → AppendInt [] n = decimal n.toNat) ∧
    (n < 0 → AppendInt [] n = '-'.toNat :: decimal n.natAbs) ∧
    (∀ k, decimalValue (decimal k) = k ∧ ∀ d ∈ decimal k, '0'.toNat ≤ d ∧ d ≤ '9'.toNat) := by
  refine ⟨?_, ?_, ?_, decimal_spec⟩
  · rw [LookupNum_of_le σ pkg pfx n hlen, AppendInt_append]
    obtain ⟨h1, h2, _⟩ := LookupBytes_eq_Lookup σ pkg (pfx ++ AppendInt [] n) hI
    refine ⟨(LookupBytes σ pkg (pfx ++ AppendInt [] n)).2, ?_, h2⟩
    rw [← h1]
  · intro h
    have hn : ¬ n < 0 := not_lt.mpr h
    simp [AppendInt, hn]
  · intro h
    simp [AppendInt, h]

theorem LookupNum_name_witness :
    ∃ σ1, LookupNum State.sample (some 1) [46, 115] (-12) =
        .ok ((Lookup State.sample (some 1) ([46, 115] ++ AppendInt [] (-12))).1, σ1) ∧
      σ1 = { (Lookup State.sample (some 1) ([46, 115] ++ AppendInt [] (-12))).2 with
             internedStrings := σ1.internedStrings } :=
  (LookupNum_name State.sample (some 1) [46, 115] (-12) InternInv_sample (by decide)).1

/-- C13: `LookupNum` panics exactly on a prefix longer than the 20-byte buffer.
For such a prefix the slice expression panics and the state is the one before
the call, symbol table and intern pool included; for a prefix of at most 20
bytes the call returns. -/
theorem LookupNum_panics_iff (σ : State) (pkg : Ptr) (pfx : GoString) (n : Int) :
    (pfx.length > 20 →
      LookupNum σ pkg pfx n = .error .sliceBoundsOutOfRange ∧
      LookupNum.run σ pkg pfx n = (.error .sliceBoundsOutOfRange, σ)) ∧
    (pfx.length ≤ 20 →
      ∃ r, LookupNum σ pkg pfx n = .ok r ∧ LookupNum.run σ pkg pfx n = (.ok r.1, r.2)) := by
  constructor
  · intro h
    refine ⟨LookupNum_of_gt σ pkg pfx n h, ?_⟩
    simp only [LookupNum.run, h, if_true]
  · intro h
    have hn : ¬ pfx.length > 20 := not_lt.mpr h
    refine ⟨_, LookupNum_of_le σ pkg pfx n h, ?_⟩
    simp only [LookupNum.run, hn, if_false, copy_take pfx h]

theorem LookupNum_panics_iff_witness :
    LookupNum State.sample (some 1) (List.replicate 21 97) 7
        = .error .sliceBoundsOutOfRange ∧
      LookupNum.run State.sample (some 1) (List.replicate 21 97) 7
        = (.error .sliceBoundsOutOfRange, State.sample) :=
  (LookupNum_panics_iff State.sample (some 1) (List.replicate 21 97) 7).1 (by decide)

/-- C15: linkage resolution.  For a non-nil `Sym`, `Linksym()` is
`LinksymABI(ABIInternal)` when the function flag is set and `LinksymABI(ABI0)`
otherwise; `LinksymABI(abi)` is `base.Linkname(Linkname, abi)` when `Linkname`
is non-empty, and otherwise `base.PkgLinksym(Pkg.Prefix, Name, abi)`, which
panics on a nil `Pkg`; on a nil `Sym`, `LinksymABI` is the fatal error
`nil symbol` and `Linksym` panics reading the flags. -/
theorem Linksym_resolution (E : LinkEnv) (σ : State) (p : Nat) :
    symFunc = 16 ∧
    (Func σ (some p) = .ok ((σ.syms p).flags &&& symFunc != 0)) ∧
    (Func σ (some p) = .ok true →
      Linksym E σ (some p) = LinksymABI E σ (some p) E.ABIInternal) ∧
    (Func σ (some p) = .ok false →
      Linksym E σ (some p) = LinksymABI E σ (some p) E.ABI0) ∧
    (∀ abi, (σ.syms p).Linkname ≠ [] →
      LinksymABI E σ (some p) abi = .ok (E.Linkname (σ.syms p).Linkname abi)) ∧
    (∀ abi q, (σ.syms p).Linkname = [] → (σ.syms p).Pkg = some q →
      LinksymABI E σ (some p) abi
        = .ok (E.PkgLinksym (σ.pkgs q).Prefix (σ.syms p).Name abi)) ∧
    (∀ abi, (σ.syms p).Linkname = [] → (σ.syms p).Pkg = none →
      LinksymABI E σ (some p) abi = .error .nilDereference) ∧
    (∀ abi, LinksymABI E σ none abi = .error .fatalNilSymbol) ∧
    Linksym E σ none = .error .nilDereference := by
  refine ⟨rfl, rfl, ?_, ?_, ?_, ?_, ?_, fun _ => rfl, rfl⟩
  · intro h
    simp only [Linksym, h]
  · intro h
    simp only [Linksym, h]
  · intro abi h
    simp only [LinksymABI, h, ne_eq, not_false_eq_true, if_true]
  · intro abi q h hq
    simp only [LinksymABI, h, hq, ne_eq, not_true_eq_false, if_false]
  · intro abi h hq
    simp only [LinksymABI, h, hq, ne_eq, not_true_eq_false, if_false]

theorem Linksym_resolution_witness :
    Linksym LinkEnv.plain State.sample (some 2)
        = LinksymABI LinkEnv.plain State.sample (some 2) LinkEnv.plain.ABI0 ∧
      LinksymABI LinkEnv.plain State.sample (some 2) 0
        = .ok (LinkEnv.plain.PkgLinksym [112] [120] 0) :=
  ⟨(Linksym_resolution LinkEnv.plain State.sample 2).2.2.2.1 rfl,
   (Linksym_resolution LinkEnv.plain State.sample 2).2.2.2.2.2.1 0 1 rfl rfl⟩

end types

/-! ## Theorems: backend hooks, architecture selection, coverage IDs -/

namespace riscv

set_option maxRecDepth 8192 in
/-- Every arm of the `switch` returns a `csr` value in the signed 12-bit range. -/
theorem encodeCases_csr_range :
    ∀ c ∈ encodeCases, -2048 ≤ c.2.csr ∧ c.2.csr ≤ 2047 := by
  have h : encodeCases.all (fun c => decide (-2048 ≤ c.2.csr ∧ c.2.csr ≤ 2047)) = true := by
    rfl
  intro c hc
  exact of_decide_eq_true (List.all_eq_true.mp h c hc)

/-- A returned descriptor is the descriptor of one of the arms. -/
theorem encode_some_mem (A : Mnemonic → Int) (a : Int) (d : inst)
    (h : encode A a = some d) : ∃ c ∈ encodeCases, c.2 = d := by
  unfold encode at h
  rw [Option.map_eq_some'] at h
  obtain ⟨c, hc, hcd⟩ := h
  exact ⟨c, List.mem_of_find?_eq_some hc, hcd⟩

/-- C16: for every mnemonic value on which `encode` returns a descriptor, the
field `csr` lies in the signed 12-bit range, `-2048 <= csr <= 2047`. -/
theorem encode_csr_range (A : Mnemonic → Int) (a : Int) (d : inst)
    (h : encode A a = some d) : -2048 ≤ d.csr ∧ d.csr ≤ 2047 := by
  obtain ⟨c, hc, hcd⟩ := encode_some_mem A a d h
  rw [← hcd]
  exact encodeCases_csr_range c hc

theorem encode_csr_range_witness :
    (-2048 : Int) ≤ (inst.mk 0x2f 0x3 0x0 (-2048) 0x40).csr ∧
      (inst.mk 0x2f 0x3 0x0 (-2048) 0x40).csr ≤ 2047 :=
  encode_csr_range ordinal (ordinal Mnemonic.AAMOMIND) _
    (by rw [encode_of_injective ordinal ordinal_injective]; rfl)

end riscv

namespace riscv64

theorem assign_length (pp : List Prog) (p : Nat) (f : Prog → Prog) :
    (assign pp p f).length = pp.length := by
  unfold assign
  cases pp.get? p <;> simp

theorem assign_get_same (pp : List Prog) (p : Nat) (f : Prog → Prog) (i : Prog)
    (h : pp.get? p = some i) : (assign pp p f).get? p = some (f i) := by
  have hlt : p < pp.length := (List.get?_eq_some.mp h).1
  simp only [assign, h]
  simp [hlt]

theorem assign_get_other (pp : List Prog) (p q : Nat) (f : Prog → Prog) (h : q ≠ p) :
    (assign pp p f).get? q = pp.get? q := by
  unfold assign
  cases pp.get? p with
  | none => rfl
  | some i => simp [List.getElem?_set_ne (Ne.symm h)]

/-- C17, as stated, fails: on a stream of one instruction with a pending stack-map
index change, where `pp.Prog` emits a `PCDATA` instruction before the one it
returns, `ginsnop` leaves a stream of three instructions, not of two, and
returns the third; the second is the `PCDATA` instruction (opcode 8 here). -/
theorem ginsnop_appends_two :
    (ginsnop Consts.plain riscv.ordinal (ProgMethod.afterPCDATA (Prog.fresh 8))
        [Prog.fresh 0]).1 = 2 ∧
    (ginsnop Consts.plain riscv.ordinal (ProgMethod.afterPCDATA (Prog.fresh 8))
        [Prog.fresh 0]).2.length = 3 ∧
    (ginsnop Consts.plain riscv.ordinal (ProgMethod.afterPCDATA (Prog.fresh 8))
        [Prog.fresh 0]).2.length ≠ [Prog.fresh 0].length + 1 ∧
    (ginsnop Consts.plain riscv.ordinal (ProgMethod.afterPCDATA (Prog.fresh 8))
        [Prog.fresh 0]).2.get? 1 = some (Prog.fresh 8) :=
  ⟨rfl, rfl, by decide, rfl⟩

/-- C17, amended: `Init` stores `ginsnop` in the hook `Ginsnop`.  `ginsnop` makes
one call `pp.Prog(AADD)`, returns the instruction that call returns and adds
no instruction beyond those the call emits; in the returned instruction it
sets `From.Type = TYPE_CONST`, `Reg = REG_ZERO` and `To` to the register
`REG_ZERO` and leaves the other fields, and it leaves every other
instruction unchanged.  So when the call returns a fresh instruction with
opcode `AADD`, the returned instruction is `AADD` with a constant `From` of
value 0, `Reg = REG_ZERO` and `To = REG_ZERO`, and when the call appends just
that instruction, the stream grows by exactly one instruction.  And
`encode(AADD)` returns a descriptor. -/
theorem ginsnop_instruction (K : Consts) (A : riscv.Mnemonic → Int) (Prg : ProgMethod)
    (arch : ArchInfo) (pp : List Prog) (i : Prog)
    (h : (Prg pp (A riscv.Mnemonic.AADD)).2.get? (Prg pp (A riscv.Mnemonic.AADD)).1
      = some i) :
    (Init K arch).Ginsnop = some Hook.ginsnop ∧
    (ginsnop K A Prg pp).1 = (Prg pp (A riscv.Mnemonic.AADD)).1 ∧
    (ginsnop K A Prg pp).2.length = (Prg pp (A riscv.Mnemonic.AADD)).2.length ∧
    (ginsnop K A Prg pp).2.get? (ginsnop K A Prg pp).1 = some
      { As := i.As,
        From := { Typ := K.TYPE_CONST, Reg := i.From.Reg, Offset := i.From.Offset },
        Reg := K.REG_ZERO,
        To := { Typ := K.TYPE_REG, Reg := K.REG_ZERO, Offset := 0 } } ∧
    (i = Prog.fresh (A riscv.Mnemonic.AADD) →
      (ginsnop K A Prg pp).2.get? (ginsnop K A Prg pp).1 = some
        { As := A riscv.Mnemonic.AADD,
          From := { Typ := K.TYPE_CONST, Reg := 0, Offset := 0 },
          Reg := K.REG_ZERO,
          To := { Typ := K.TYPE_REG, Reg := K.REG_ZERO, Offset := 0 } }) ∧
    (∀ q, q ≠ (Prg pp (A riscv.Mnemonic.AADD)).1 →
      (ginsnop K A Prg pp).2.get? q = (Prg pp (A riscv.Mnemonic.AADD)).2.get? q) ∧
    (Prg pp (A riscv.Mnemonic.AADD)
        = (pp.length, pp ++ [Prog.fresh (A riscv.Mnemonic.AADD)]) →
      ginsnop K A Prg pp = (pp.length, pp ++ [
        { As := A riscv.Mnemonic.AADD,
          From := { Typ := K.TYPE_CONST, Reg := 0, Offset := 0 },
          Reg := K.REG_ZERO,
          To := { Typ := K.TYPE_REG, Reg := K.REG_ZERO, Offset := 0 } }])) ∧
    riscv.encode A (A riscv.Mnemonic.AADD) = some (riscv.inst.mk 0x33 0x0 0x0 0 0x0) := by
  have h1 := assign_get_same _ _
    (fun i : Prog => { i with From := { i.From with Typ := K.TYPE_CONST } }) i h
  have h2 := assign_get_same _ _ (fun i : Prog => { i with Reg := K.REG_ZERO }) _ h1
  have h3 := assign_get_same _ _
    (fun i : Prog =>
      { i with To := { Typ := K.TYPE_REG, Reg := K.REG_ZERO, Offset := 0 } }) _ h2
  refine ⟨rfl, rfl, ?_, h3, ?_, ?_, ?_, ?_⟩
  · simp only [ginsnop, assign_length]
  · intro hi
    subst hi
    exact h3
  · intro q hq
    simp only [ginsnop, assign_get_other _ _ _ _ hq]
  · intro he
    have hget : ∀ (x : Prog), (pp ++ [x]).get? pp.length = some x := by
      intro x
      simp
    have hset : ∀ (x y : Prog), (pp ++ [x]).set pp.length y = pp ++ [y] := by
      intro x y
      simp
    simp only [ginsnop, he, assign, hget, hset, Prog.fresh, Addr.zero]
  · simp [riscv.encode, riscv.encodeCases]

theorem ginsnop_instruction_witness :
    ginsnop Consts.plain riscv.ordinal ProgMethod.append [Prog.fresh 0]
      = (1, [Prog.fresh 0,
          { As := riscv.ordinal riscv.Mnemonic.AADD,
            From := { Typ := Consts.plain.TYPE_CONST, Reg := 0, Offset := 0 },
            Reg := Consts.plain.REG_ZERO,
            To := { Typ := Consts.plain.TYPE_REG, Reg := Consts.plain.REG_ZERO,
                    Offset := 0 } }]) :=
  (ginsnop_instruction Consts.plain riscv.ordinal ProgMethod.append ArchInfo.zero
    [Prog.fresh 0] (Prog.fresh (riscv.ordinal riscv.Mnemonic.AADD)) rfl).2.2.2.2.2.2.1 rfl

end riscv64

namespace cmd

open types

theorem archInits_keys_nodup : (archInits.map Prod.fst).Nodup := by
  decide

/-- Every entry of `archInits` is what the map lookup of its key finds. -/
theorem archInits_lookup :
    ∀ kf ∈ archInits, List.lookup kf.1 archInits = some kf.2 := by
  decide

/-- C18: architecture selection in `main`.  When the target name is not one of
the 14 keys of `archInits`, and only then, `main` writes the diagnostic naming
it and calls `os.Exit(2)` without calling `gc.Main`; for a key it calls
`gc.Main` with the initializer stored under that key and then `base.Exit(0)`.
The keys `mips` and `mipsle` hold `mips.Init`, `mips64` and `mips64le` hold
`mips64.Init`, `ppc64` and `ppc64le` hold `ppc64.Init`, `riscv64` holds
`riscv64.Init`. -/
theorem main_arch_selection (GOARCH : GoString) :
    archInits.length = 14 ∧
    (GOARCH ∉ archInits.map Prod.fst ↔
      main GOARCH = [Event.logSetFlags 0, Event.logSetPrefix (str "compile: "),
        Event.buildcfgCheck, Event.stderrUnknownArchitecture GOARCH, Event.osExit 2]) ∧
    (∀ f, (GOARCH, f) ∈ archInits →
      main GOARCH = [Event.logSetFlags 0, Event.logSetPrefix (str "compile: "),
        Event.buildcfgCheck, Event.gcMain f, Event.baseExit 0]) ∧
    (Event.osExit 2 ∈ main GOARCH ↔ GOARCH ∉ archInits.map Prod.fst) ∧
    (GOARCH ∉ archInits.map Prod.fst → ∀ f, Event.gcMain f ∉ main GOARCH) ∧
    (List.lookup (str "mips") archInits = some InitFunc.mips ∧
      List.lookup (str "mipsle") archInits = some InitFunc.mips ∧
      List.lookup (str "mips64") archInits = some InitFunc.mips64 ∧
      List.lookup (str "mips64le") archInits = some InitFunc.mips64 ∧
      List.lookup (str "ppc64") archInits = some InitFunc.ppc64 ∧
      List.lookup (str "ppc64le") archInits = some InitFunc.ppc64 ∧
      List.lookup (str "riscv64") archInits = some InitFunc.riscv64) := by
  have hnone : GOARCH ∉ archInits.map Prod.fst ↔ List.lookup GOARCH archInits = none := by
    rw [List.lookup_eq_none_iff, List.mem_map]
    constructor
    · intro h p hp
      simp only [bne_iff_ne, ne_eq]
      intro e
      exact h ⟨p, hp, e.symm⟩
    · rintro h ⟨p, hp, e⟩
      have := h p hp
      simp [e] at this
  have hsome : ∀ f, (GOARCH, f) ∈ archInits → List.lookup GOARCH archInits = some f :=
    fun f hf => archInits_lookup (GOARCH, f) hf
  refine ⟨rfl, ?_, ?_, ?_, ?_, by decide⟩
  · rw [hnone]
    cases hl : List.lookup GOARCH archInits with
    | none => simp [main, hl]
    | some f => simp [main, hl]
  · intro f hf
    simp [main, hsome f hf]
  · rw [hnone]
    cases hl : List.lookup GOARCH archInits with
    | none => simp [main, hl]
    | some f => simp [main, hl]
  · intro h f
    rw [hnone] at h
    simp [main, h]

theorem main_arch_selection_witness :
    main (str "sparc") = [Event.logSetFlags 0, Event.logSetPrefix (str "compile: "),
        Event.buildcfgCheck, Event.stderrUnknownArchitecture (str "sparc"), Event.osExit 2] ∧
    main (str "riscv64") = [Event.logSetFlags 0, Event.logSetPrefix (str "compile: "),
        Event.buildcfgCheck, Event.gcMain InitFunc.riscv64, Event.baseExit 0] :=
  ⟨(main_arch_selection (str "sparc")).2.1.mp (by decide),
   (main_arch_selection (str "riscv64")).2.2.1 InitFunc.riscv64 (by decide)⟩

end cmd

namespace coverage

open types

theorem loop_le (pkgpath : GoString) : ∀ (l : List GoString) (k : Nat),
    HardCodedPkgID.loop pkgpath k l = NotHardCoded ∨
      HardCodedPkgID.loop pkgpath k l ≤ -2 - (k : Int)
  | [], _ => Or.inl rfl
  | p :: rest, k => by
    simp only [HardCodedPkgID.loop]
    by_cases h : p = pkgpath
    · simp only [h, if_true]
      exact Or.inr (by omega)
    · simp only [h, if_false]
      rcases loop_le pkgpath rest (k + 1) with h1 | h1
      · exact Or.inl h1
      · exact Or.inr (by push_cast at h1; omega)

theorem loop_eq_notHardCoded_iff (pkgpath : GoString) : ∀ (l : List GoString) (k : Nat),
    HardCodedPkgID.loop pkgpath k l = NotHardCoded ↔ pkgpath ∉ l
  | [], _ => by simp [HardCodedPkgID.loop]
  | p :: rest, k => by
    simp only [HardCodedPkgID.loop]
    by_cases h : p = pkgpath
    · simp only [h, if_true, List.mem_cons, true_or, not_true_eq_false, iff_false]
      simp only [NotHardCoded]
      omega
    · simp only [h, if_false, List.mem_cons]
      rw [loop_eq_notHardCoded_iff pkgpath rest (k + 1)]
      constructor
      · rintro h1 (h2 | h2)
        · exact h h2.symm
        · exact h1 h2
      · intro h1 h2
        exact h1 (Or.inr h2)

/-- C19: `HardCodedPkgID` returns `-2 - k` for the path at position `k` of
`rtPkgs`, so the 12 listed paths get the distinct IDs `-2` down to `-13`, and
it returns `-1` (`NotHardCoded`) exactly for a path that is not in the list. -/
theorem HardCodedPkgID_spec :
    rtPkgs.length = 12 ∧ rtPkgs.Nodup ∧ NotHardCoded = -1 ∧
    (∀ k p, rtPkgs.get? k = some p → HardCodedPkgID p = -2 - (k : Int)) ∧
    (∀ pkgpath, HardCodedPkgID pkgpath = -1 ↔ pkgpath ∉ rtPkgs) ∧
    (∀ pkgpath, pkgpath ∈ rtPkgs →
      -13 ≤ HardCodedPkgID pkgpath ∧ HardCodedPkgID pkgpath ≤ -2) ∧
    (∀ p q, p ∈ rtPkgs → q ∈ rtPkgs → HardCodedPkgID p = HardCodedPkgID q → p = q) := by
  have hpos : ∀ k p, rtPkgs.get? k = some p → HardCodedPkgID p = -2 - (k : Int) := by
    intro k p h
    have hk : k < 12 := by
      have := (List.get?_eq_some.mp h).1
      exact this
    interval_cases k <;> simp [rtPkgs] at h <;> subst h <;> decide
  refine ⟨rfl, by decide, rfl, hpos, ?_, ?_, ?_⟩
  · intro pkgpath
    exact loop_eq_notHardCoded_iff pkgpath rtPkgs 0
  · intro pkgpath hm
    obtain ⟨k, hk⟩ := List.get?_of_mem hm
    have hlt : k < 12 := (List.get?_eq_some.mp hk).1
    rw [hpos k pkgpath hk]
    omega
  · intro p q hp hq he
    obtain ⟨i, hi⟩ := List.get?_of_mem hp
    obtain ⟨j, hj⟩ := List.get?_of_mem hq
    rw [hpos i p hi, hpos j q hj] at he
    have hij : i = j := by omega
    subst hij
    rw [hi] at hj
    exact Option.some.inj hj

theorem HardCodedPkgID_spec_witness :
    HardCodedPkgID (str "src_internal/cpu") = -2 ∧
    HardCodedPkgID (str "runtime") = -13 ∧
    HardCodedPkgID (str "fmt") = -1 :=
  ⟨HardCodedPkgID_spec.2.2.2.1 0 _ rfl, HardCodedPkgID_spec.2.2.2.1 11 _ rfl,
   (HardCodedPkgID_spec.2.2.2.2.1 (str "fmt")).mpr (by decide)⟩

end coverage

namespace types

/-! ## Theorems: symbol flags -/

/-- Testing a flag with a one-bit mask reads that bit. -/
theorem and_two_pow_ne_zero (f i : Nat) : (f &&& 2 ^ i != 0) = f.testBit i := by
  cases h : f.testBit i with
  | false =>
    have h0 : f &&& 2 ^ i = 0 := by
      apply Nat.eq_of_testBit_eq
      intro j
      rw [Nat.testBit_and, Nat.testBit_two_pow, Nat.zero_testBit]
      by_cases hij : i = j
      · subst hij
        simp [h]
      · simp [hij]
    simp [h0]
  | true =>
    have h0 : f &&& 2 ^ i ≠ 0 := by
      intro h0
      have h1 : (f &&& 2 ^ i).testBit i = true := by
        rw [Nat.testBit_and, Nat.testBit_two_pow_self, h]
        rfl
      rw [h0, Nat.zero_testBit] at h1
      cases h1
    simp [h0]

/-- Bit `j` after `set` with the one-bit mask `2 ^ i`. -/
theorem bitset8_set_testBit (f i j : Nat) (b : Bool) :
    (bitset8.set f (2 ^ i) b).testBit j = if i = j then b else f.testBit j := by
  unfold bitset8.set
  cases b with
  | true =>
    rw [if_pos rfl, Nat.testBit_or, Nat.testBit_two_pow]
    by_cases hij : i = j
    · simp [hij]
    · simp [hij]
  | false =>
    rw [if_neg (by decide), Nat.testBit_xor, Nat.testBit_and, Nat.testBit_two_pow]
    by_cases hij : i = j
    · simp [hij]
    · simp [hij]

/-- Getter with mask `2 ^ j` after `set` with mask `2 ^ i`. -/
theorem bitset8_set_get (f i j : Nat) (b : Bool) :
    (bitset8.set f (2 ^ i) b &&& 2 ^ j != 0) =
      if i = j then b else (f &&& 2 ^ j != 0) := by
  rw [and_two_pow_ne_zero, and_two_pow_ne_zero, bitset8_set_testBit]

theorem setFlag_flags (σ σ1 : State) (p mask : Nat) (b : Bool)
    (h : setFlag σ (some p) mask b = .ok σ1) :
    (σ1.syms p).flags = bitset8.set (σ.syms p).flags mask b := by
  simp only [setFlag] at h
  cases h
  simp

theorem flag_masks :
    symOnExportList = 2 ^ 0 ∧ symUniq = 2 ^ 1 ∧ symSiggen = 2 ^ 2 ∧ symAsm = 2 ^ 3 ∧
      symFunc = 2 ^ 4 :=
  ⟨rfl, rfl, rfl, rfl, rfl⟩

/-- C21: per-bit flag semantics.  The five flags are the single bits 1, 2, 4, 8
and 16; after a setter `SetF(v)` on a non-nil `Sym` the getter `F()` returns
`v` and the other four getters return what they returned before; and the
`Sym` created by `LookupOK` has all five flags false. -/
theorem flags_per_bit (σ : State) (p : Nat) (v : Bool) :
    (symOnExportList = 1 ∧ symUniq = 2 ∧ symSiggen = 4 ∧ symAsm = 8 ∧ symFunc = 16) ∧
    (∃ σ1, SetOnExportList σ (some p) v = .ok σ1 ∧
      OnExportList σ1 (some p) = .ok v ∧
      Uniq σ1 (some p) = Uniq σ (some p) ∧
      Siggen σ1 (some p) = Siggen σ (some p) ∧
      Asm σ1 (some p) = Asm σ (some p) ∧
      Func σ1 (some p) = Func σ (some p)) ∧
    (∃ σ1, SetUniq σ (some p) v = .ok σ1 ∧
      OnExportList σ1 (some p) = OnExportList σ (some p) ∧
      Uniq σ1 (some p) = .ok v ∧
      Siggen σ1 (some p) = Siggen σ (some p) ∧
      Asm σ1 (some p) = Asm σ (some p) ∧
      Func σ1 (some p) = Func σ (some p)) ∧
    (∃ σ1, SetSiggen σ (some p) v = .ok σ1 ∧
      OnExportList σ1 (some p) = OnExportList σ (some p) ∧
      Uniq σ1 (some p) = Uniq σ (some p) ∧
      Siggen σ1 (some p) = .ok v ∧
      Asm σ1 (some p) = Asm σ (some p) ∧
      Func σ1 (some p) = Func σ (some p)) ∧
    (∃ σ1, SetAsm σ (some p) v = .ok σ1 ∧
      OnExportList σ1 (some p) = OnExportList σ (some p) ∧
      Uniq σ1 (some p) = Uniq σ (some p) ∧
      Siggen σ1 (some p) = Siggen σ (some p) ∧
      Asm σ1 (some p) = .ok v ∧
      Func σ1 (some p) = Func σ (some p)) ∧
    (∃ σ1, SetFunc σ (some p) v = .ok σ1 ∧
      OnExportList σ1 (some p) = OnExportList σ (some p) ∧
      Uniq σ1 (some p) = Uniq σ (some p) ∧
      Siggen σ1 (some p) = Siggen σ (some p) ∧
      Asm σ1 (some p) = Asm σ (some p) ∧
      Func σ1 (some p) = .ok v) ∧
    (∀ pkg name, (σ.pkgs (σ.recv pkg)).Syms name = none →
      OnExportList (LookupOK σ pkg name).2 (some (LookupOK σ pkg name).1.1) = .ok false ∧
      Uniq (LookupOK σ pkg name).2 (some (LookupOK σ pkg name).1.1) = .ok false ∧
      Siggen (LookupOK σ pkg name).2 (some (LookupOK σ pkg name).1.1) = .ok false ∧
      Asm (LookupOK σ pkg name).2 (some (LookupOK σ pkg name).1.1) = .ok false ∧
      Func (LookupOK σ pkg name).2 (some (LookupOK σ pkg name).1.1) = .ok false) := by
  obtain ⟨m0, m1, m2, m3, m4⟩ := flag_masks
  have hset : ∀ mask, ∃ σ1, setFlag σ (some p) mask v = .ok σ1 ∧
      (σ1.syms p).flags = bitset8.set (σ.syms p).flags mask v := by
    intro mask
    exact ⟨_, rfl, setFlag_flags σ _ p mask v rfl⟩
  refine ⟨⟨rfl, rfl, rfl, rfl, rfl⟩, ?_, ?_, ?_, ?_, ?_, ?_⟩
  · obtain ⟨σ1, h1, h2⟩ := hset symOnExportList
    refine ⟨σ1, h1, ?_, ?_, ?_, ?_, ?_⟩ <;>
      simp only [OnExportList, Uniq, Siggen, Asm, Func, h2, m0, m1, m2, m3, m4,
        bitset8_set_get] <;> simp
  · obtain ⟨σ1, h1, h2⟩ := hset symUniq
    refine ⟨σ1, h1, ?_, ?_, ?_, ?_, ?_⟩ <;>
      simp only [OnExportList, Uniq, Siggen, Asm, Func, h2, m0, m1, m2, m3, m4,
        bitset8_set_get] <;> simp
  · obtain ⟨σ1, h1, h2⟩ := hset symSiggen
    refine ⟨σ1, h1, ?_, ?_, ?_, ?_, ?_⟩ <;>
      simp only [OnExportList, Uniq, Siggen, Asm, Func, h2, m0, m1, m2, m3, m4,
        bitset8_set_get] <;> simp
  · obtain ⟨σ1, h1, h2⟩ := hset symAsm
    refine ⟨σ1, h1, ?_, ?_, ?_, ?_, ?_⟩ <;>
      simp only [OnExportList, Uniq, Siggen, Asm, Func, h2, m0, m1, m2, m3, m4,
        bitset8_set_get] <;> simp
  · obtain ⟨σ1, h1, h2⟩ := hset symFunc
    refine ⟨σ1, h1, ?_, ?_, ?_, ?_, ?_⟩ <;>
      simp only [OnExportList, Uniq, Siggen, Asm, Func, h2, m0, m1, m2, m3, m4,
        bitset8_set_get] <;> simp
  · intro pkg name h
    rw [LookupOK_of_none σ pkg name h]
    simp [OnExportList, Uniq, Siggen, Asm, Func]

theorem flags_per_bit_witness :
    (∃ σ1, SetFunc State.sample (some 2) true = .ok σ1 ∧
      OnExportList σ1 (some 2) = OnExportList State.sample (some 2) ∧
      Uniq σ1 (some 2) = Uniq State.sample (some 2) ∧
      Siggen σ1 (some 2) = Siggen State.sample (some 2) ∧
      Asm σ1 (some 2) = Asm State.sample (some 2) ∧
      Func σ1 (some 2) = .ok true) ∧
    Func State.sample (some 2) = .ok false :=
  ⟨(flags_per_bit State.sample 2 true).2.2.2.2.2.1, rfl⟩

/-! ## Theorems: locking, panics of the ordering, package names -/

/-- C22, as stated, fails: in the initial state `NewPkg("p", "p")` creates and
inserts the package and `LookupOK("x")` creates and inserts the symbol, and
neither insert happens while a mutex is held; neither body takes a lock. -/
theorem inserts_not_locked :
    (∃ σ1, NewPkg Extern.plain State.init [112] [112] = .ok (1, σ1) ∧
      σ1.pkgMap [112] = some 1) ∧
    NewPkg.ops State.init [112] = [Op.read Registry.pkgMap, Op.insert Registry.pkgMap] ∧
    insertsLocked false (NewPkg.ops State.init [112]) = false ∧
    (LookupOK State.init none [120]).1 = (0, false) ∧
    LookupOK.ops State.init none [120] = [Op.read Registry.Syms, Op.insert Registry.Syms] ∧
    insertsLocked false (LookupOK.ops State.init none [120]) = false :=
  ⟨⟨_, rfl, rfl⟩, rfl, rfl, rfl, rfl, rfl⟩

/-- C22, amended: only the intern pool is guarded by a lock.  `InternString`
makes its read and, for a first interning, its insert between `Lock` and
`Unlock` of `internedStringsmu` and has released the mutex on every path;
`NewPkg` and `LookupOK` take no lock, and each inserts exactly on a first
creation. -/
theorem InternString_locked (σ : State) (b path name : GoString) (pkg : Ptr) :
    insertsLocked false (InternString.ops σ b) = true ∧
    heldAfter false (InternString.ops σ b) = false ∧
    (InternString.ops σ b).head? = some Op.lock ∧
    (InternString.ops σ b).getLast? = some Op.unlock ∧
    (Op.insert Registry.internedStrings ∈ InternString.ops σ b ↔
      σ.internedStrings b = none) ∧
    Op.lock ∉ NewPkg.ops σ path ∧
    Op.lock ∉ LookupOK.ops σ pkg name ∧
    (Op.insert Registry.pkgMap ∈ NewPkg.ops σ path ↔ σ.pkgMap path = none) ∧
    (Op.insert Registry.Syms ∈ LookupOK.ops σ pkg name ↔
      (σ.pkgs (σ.recv pkg)).Syms name = none) := by
  refine ⟨?_, ?_, ?_, ?_, ?_, ?_, ?_, ?_, ?_⟩
  · unfold InternString.ops
    cases σ.internedStrings b <;> rfl
  · unfold InternString.ops
    cases σ.internedStrings b <;> rfl
  · unfold InternString.ops
    cases σ.internedStrings b <;> rfl
  · unfold InternString.ops
    cases σ.internedStrings b <;> rfl
  · unfold InternString.ops
    cases σ.internedStrings b <;> simp
  · unfold NewPkg.ops
    cases σ.pkgMap path <;> simp
  · unfold LookupOK.ops
    cases (σ.pkgs (σ.recv pkg)).Syms name <;> simp
  · unfold NewPkg.ops
    cases σ.pkgMap path <;> simp
  · unfold LookupOK.ops
    cases (σ.pkgs (σ.recv pkg)).Syms name <;> simp

/-- C26: `Less` and `IsExported` are safe only under a precondition.  On operands
that are nil or have a non-empty `Name` and a non-nil `Pkg`, `Less` returns;
`IsExported("")` panics with an index out of range, so `Less` panics on two
distinct non-nil symbols one of which has an empty `Name`, and
`Selector("")` panics. -/
theorem Less_safety (X : Extern) (σ : State) :
    (∀ a b, Comparable σ a → Comparable σ b → ∃ r, Less X σ a b = .ok r) ∧
    IsExported X [] = .error .indexOutOfRange ∧
    (∀ pa pb, pa ≠ pb → ((σ.syms pa).Name = [] ∨ (σ.syms pb).Name = []) →
      Less X σ (some pa) (some pb) = .error .indexOutOfRange) ∧
    (∀ pkg, Selector X σ pkg [] = .error .indexOutOfRange) := by
  refine ⟨Less_returns X σ, rfl, ?_, fun _ => rfl⟩
  intro pa pb hne h
  by_cases ha : (σ.syms pa).Name = []
  · exact Less_error_left X σ pa pb _ hne (by rw [ha]; rfl)
  · have hb : (σ.syms pb).Name = [] := h.resolve_left ha
    obtain ⟨ea, hea⟩ := IsExported_ok_of_ne_nil X _ ha
    exact Less_error_right X σ pa pb ea _ hne hea (by rw [hb]; rfl)

theorem Less_safety_witness :
    (∃ r, Less Extern.plain State.sample (some 0) (some 3) = .ok r) ∧
    Less Extern.plain State.sample (some 0) (some 7) = .error .indexOutOfRange :=
  ⟨(Less_safety Extern.plain State.sample).1 (some 0) (some 3)
      (fun p hp => by cases hp; exact ⟨by decide, by decide⟩)
      (fun p hp => by cases hp; exact ⟨by decide, by decide⟩),
   (Less_safety Extern.plain State.sample).2.2.1 0 7 (by decide) (Or.inr rfl)⟩

theorem NewPkg_of_none (X : Extern) (σ : State) (path name : GoString)
    (h : σ.pkgMap path = none) :
    NewPkg X σ path name = .ok (σ.nextPkg,
      { σ with
        pkgs := Function.update σ.pkgs σ.nextPkg
          { Path := path, Name := name,
            Prefix := if path = goShape then path else X.PathToPrefix path,
            Syms := GoMap.empty, Pathsym := none, Direct := false },
        nextPkg := σ.nextPkg + 1,
        pkgMap := σ.pkgMap.set path σ.nextPkg }) := by
  simp only [NewPkg, h]

/-- C27: name compatibility depends on the call order.  When `NewPkg(p, "")`
creates the package for `p`, its `Name` is empty; every later returning
`NewPkg` on `p` leaves the state, and so that `Name`, unchanged, and
`NewPkg(p, n)` panics for every non-empty `n`; whereas `NewPkg(p, n)`
followed by `NewPkg(p, "")` returns the same package. -/
theorem NewPkg_name_order (X : Extern) (σ : State) (path : GoString)
    (h : σ.pkgMap path = none) :
    (∃ p σ1, NewPkg X σ path [] = .ok (p, σ1) ∧ (σ1.pkgs p).Name = [] ∧
      (∀ n, n ≠ [] → NewPkg X σ1 path n = .error (.conflictingPackageNames [] n path)) ∧
      (∀ n r, NewPkg X σ1 path n = .ok r → r = (p, σ1))) ∧
    (∀ n, ∃ q σ2, NewPkg X σ path n = .ok (q, σ2) ∧ NewPkg X σ2 path [] = .ok (q, σ2)) := by
  constructor
  · refine ⟨σ.nextPkg, _, NewPkg_of_none X σ path [] h, by simp, ?_, ?_⟩
    · intro n hn
      have hn2 : ¬ ([] : GoString) = n := fun e => hn e.symm
      simp [NewPkg, GoMap.set, hn, hn2]
    · intro n r hr
      by_cases hn : n = []
      · subst hn
        simp [NewPkg, GoMap.set] at hr
        exact hr.symm
      · have hn2 : ¬ ([] : GoString) = n := fun e => hn e.symm
        simp [NewPkg, GoMap.set, hn, hn2] at hr
  · intro n
    refine ⟨σ.nextPkg, _, NewPkg_of_none X σ path n h, ?_⟩
    simp [NewPkg, GoMap.set]

theorem NewPkg_name_order_witness :
    ∃ p σ1, NewPkg Extern.plain State.init [112] [] = .ok (p, σ1) ∧
      NewPkg Extern.plain σ1 [112] [110]
        = .error (.conflictingPackageNames [] [110] [112]) := by
  obtain ⟨⟨p, σ1, h1, _, h3, _⟩, _⟩ := NewPkg_name_order Extern.plain State.init [112] rfl
  exact ⟨p, σ1, h1, h3 [110] (by decide)⟩

end types

/-! ## Theorems: bit fields of the descriptors -/

namespace riscv

open Mnemonic

set_option maxRecDepth 8192 in
/-- In every arm of the `switch`, `csr` modulo 4096 is `funct7 * 32 + rs2`. -/
theorem encodeCases_csr_packing :
    ∀ c ∈ encodeCases, c.2.csr % 4096 = ((c.2.funct7 * 32 + c.2.rs2 : Nat) : Int) := by
  have h : encodeCases.all
      (fun c => decide (c.2.csr % 4096 = ((c.2.funct7 * 32 + c.2.rs2 : Nat) : Int))) = true := by
    rfl
  intro c hc
  exact of_decide_eq_true (List.all_eq_true.mp h c hc)

set_option maxRecDepth 8192 in
/-- In every arm of the `switch` the fields fit their instruction bit fields. -/
theorem encodeCases_fields :
    ∀ c ∈ encodeCases, c.2.opcode < 128 ∧ c.2.opcode % 4 = 3 ∧ c.2.funct3 < 8 ∧
      c.2.rs2 < 32 ∧ c.2.funct7 < 128 := by
  have h : encodeCases.all
      (fun c => decide (c.2.opcode < 128 ∧ c.2.opcode % 4 = 3 ∧ c.2.funct3 < 8 ∧
        c.2.rs2 < 32 ∧ c.2.funct7 < 128)) = true := by
    rfl
  intro c hc
  exact of_decide_eq_true (List.all_eq_true.mp h c hc)

theorem equalOnlyAliases_encodeCases : equalOnlyAliases encodeCases = true := by
  decide!

theorem contains_aliases (a b : Mnemonic) (h : aliases.contains (a, b) = true) :
    (a, b) ∈ aliases := by
  obtain ⟨x, hx, hb⟩ := List.contains_iff_exists_mem_beq.mp h
  have hxe : (a, b) = x := by simpa using hb
  rw [hxe]
  exact hx

/-- What the check `equalOnlyAliases` establishes for any two different entries. -/
theorem equalOnlyAliases_sound : ∀ (l : List (Mnemonic × inst)),
    equalOnlyAliases l = true → ∀ c1 ∈ l, ∀ c2 ∈ l, c1 ≠ c2 → c1.2 = c2.2 →
      ((c1.1, c2.1) ∈ aliases ∨ (c2.1, c1.1) ∈ aliases)
  | [], _, c1, h1, _, _, _, _ => absurd h1 (List.not_mem_nil c1)
  | c :: rest, h, c1, h1, c2, h2, hne, he => by
    simp only [equalOnlyAliases, Bool.and_eq_true, List.all_eq_true] at h
    obtain ⟨hc, hrest⟩ := h
    have step : ∀ x ∈ rest, c.2 = x.2 →
        ((c.1, x.1) ∈ aliases ∨ (x.1, c.1) ∈ aliases) := by
      intro x hx hex
      have hb := hc x hx
      simp only [hex, decide_True, Bool.not_true, Bool.false_or, Bool.or_eq_true] at hb
      rcases hb with hb | hb
      · exact Or.inl (contains_aliases _ _ hb)
      · exact Or.inr (contains_aliases _ _ hb)
    rcases List.mem_cons.mp h1 with e1 | m1
    · rcases List.mem_cons.mp h2 with e2 | m2
      · exact absurd (e1.trans e2.symm) hne
      · rw [e1] at he ⊢
        exact step c2 m2 he
    · rcases List.mem_cons.mp h2 with e2 | m2
      · rw [e2] at he ⊢
        exact (step c1 m1 he.symm).symm
      · exact equalOnlyAliases_sound rest hrest c1 m1 c2 m2 hne he

/-- Two arms with different labels return equal descriptors only when the labels
are an alias pair. -/
theorem encodeCases_distinct :
    ∀ c1 ∈ encodeCases, ∀ c2 ∈ encodeCases, c1.1 ≠ c2.1 → c1.2 = c2.2 →
      ((c1.1, c2.1) ∈ aliases ∨ (c2.1, c1.1) ∈ aliases) := by
  intro c1 h1 c2 h2 hne he
  exact equalOnlyAliases_sound encodeCases equalOnlyAliases_encodeCases c1 h1 c2 h2
    (fun e => hne (by rw [e])) he

/-- The two mnemonics of an alias pair get the same descriptor. -/
theorem encode_alias (A : Mnemonic → Int) (hA : Function.Injective A) (m1 m2 : Mnemonic)
    (h : (m1, m2) ∈ aliases) : encode A (A m1) = encode A (A m2) := by
  simp only [aliases, List.mem_cons, Prod.mk.injEq, List.mem_singleton, List.not_mem_nil,
    or_false] at h
  rcases h with ⟨rfl, rfl⟩ | ⟨rfl, rfl⟩ | ⟨rfl, rfl⟩ | ⟨rfl, rfl⟩ <;>
    rw [encode_of_injective A hA, encode_of_injective A hA] <;> rfl

/-- With pairwise distinct constants, `encode` on the constant of `m` returns the
descriptor of an arm labelled `m`. -/
theorem encode_entry (A : Mnemonic → Int) (hA : Function.Injective A) (m : Mnemonic) :
    ∃ c ∈ encodeCases, c.1 = m ∧ encode A (A m) = some c.2 := by
  have hs : (encode A (A m)).isSome = true := (encode_isSome_iff A (A m)).mpr ⟨m, rfl⟩
  rw [encode_of_injective A hA] at hs ⊢
  rw [Option.isSome_map'] at hs
  obtain ⟨c, hc⟩ := Option.isSome_iff_exists.mp hs
  have hk := List.find?_some hc
  exact ⟨c, List.mem_of_find?_eq_some hc, by simpa using hk, by rw [hc]; rfl⟩

/-- C23: for every mnemonic value on which `encode` returns a descriptor `d`,
`d.csr` modulo 4096 equals `d.funct7 * 32 + d.rs2`: the field `csr` is the
sign-extended 12-bit packing of `funct7` and `rs2`. -/
theorem encode_csr_packing (A : Mnemonic → Int) (a : Int) (d : inst)
    (h : encode A a = some d) :
    d.csr % 4096 = ((d.funct7 * 32 + d.rs2 : Nat) : Int) := by
  obtain ⟨c, hc, hcd⟩ := encode_some_mem A a d h
  rw [← hcd]
  exact encodeCases_csr_packing c hc

theorem encode_csr_packing_witness :
    (inst.mk 0xf 0x0 0x13 (-1997) 0x41).csr % 4096
      = (((inst.mk 0xf 0x0 0x13 (-1997) 0x41).funct7 * 32
          + (inst.mk 0xf 0x0 0x13 (-1997) 0x41).rs2 : Nat) : Int) :=
  encode_csr_packing ordinal (ordinal Mnemonic.AFENCETSO) _
    (by rw [encode_of_injective ordinal ordinal_injective]; rfl)

/-- C24: distinct mnemonics have distinct descriptors except for aliases.  With
pairwise distinct mnemonic constants, two different mnemonics both get a
descriptor, and the descriptors are equal field for field exactly when the
two are one of the pairs `AECALL`/`ASCALL`, `AEBREAK`/`ASBREAK`,
`AFMVSX`/`AFMVWX`, `AFMVXS`/`AFMVXW`. -/
theorem encode_distinct (A : Mnemonic → Int) (hA : Function.Injective A)
    (m1 m2 : Mnemonic) (hne : m1 ≠ m2) :
    ∃ d1 d2, encode A (A m1) = some d1 ∧ encode A (A m2) = some d2 ∧
      (d1 = d2 ↔ ((m1, m2) ∈ aliases ∨ (m2, m1) ∈ aliases)) := by
  obtain ⟨c1, h1, k1, e1⟩ := encode_entry A hA m1
  obtain ⟨c2, h2, k2, e2⟩ := encode_entry A hA m2
  refine ⟨c1.2, c2.2, e1, e2, ?_, ?_⟩
  · intro he
    have h := encodeCases_distinct c1 h1 c2 h2 (by rw [k1, k2]; exact hne) he
    rw [k1, k2] at h
    exact h
  · intro ha
    have hs : encode A (A m1) = encode A (A m2) := by
      rcases ha with ha | ha
      · exact encode_alias A hA m1 m2 ha
      · exact (encode_alias A hA m2 m1 ha).symm
    rw [e1, e2] at hs
    exact Option.some.inj hs

theorem encode_distinct_witness :
    ∃ d1 d2, encode ordinal (ordinal AECALL) = some d1 ∧
      encode ordinal (ordinal ASCALL) = some d2 ∧
      (d1 = d2 ↔ ((AECALL, ASCALL) ∈ aliases ∨ (ASCALL, AECALL) ∈ aliases)) :=
  encode_distinct ordinal ordinal_injective AECALL ASCALL (by decide)

/-- C25: every descriptor returned by `encode` fits the instruction-word bit
fields: `opcode < 128` with `opcode mod 4 = 3`, `funct3 < 8`, `rs2 < 32` and
`funct7 < 128`. -/
theorem encode_fields (A : Mnemonic → Int) (a : Int) (d : inst)
    (h : encode A a = some d) :
    d.opcode < 128 ∧ d.opcode % 4 = 3 ∧ d.funct3 < 8 ∧ d.rs2 < 32 ∧ d.funct7 < 128 := by
  obtain ⟨c, hc, hcd⟩ := encode_some_mem A a d h
  rw [← hcd]
  exact encodeCases_fields c hc

theorem encode_fields_witness :
    (inst.mk 0x73 0x0 0x12 1970 0x3d).opcode < 128 ∧
      (inst.mk 0x73 0x0 0x12 1970 0x3d).opcode % 4 = 3 ∧
      (inst.mk 0x73 0x0 0x12 1970 0x3d).funct3 < 8 ∧
      (inst.mk 0x73 0x0 0x12 1970 0x3d).rs2 < 32 ∧
      (inst.mk 0x73 0x0 0x12 1970 0x3d).funct7 < 128 :=
  encode_fields ordinal (ordinal Mnemonic.ADRET) _
    (by rw [encode_of_injective ordinal ordinal_injective]; rfl)

end riscv

end Compile
